import Mathlib

/-!
Shallow embedding of the hierarchical file/folder store of the CipherStudio
backend (Mongoose `File` model in `Backend/src/models`, controllers in
`Backend/src/controllers/fileController.js`, validators in
`Backend/src/middleware/validation.js`).

The Mongo collection is modelled as a list of `File` records; `_id`s and
project ids are `Nat`.  Controller concerns outside the store (authentication,
project-ownership checks, S3 uploads, project metadata recounts) are omitted:
they never touch the file collection.  Unbounded recursive collection walks
(`updateChildrenPaths`, `deleteRecursively`, `buildFileTree`) are embedded with
an explicit fuel argument; the operations call them with fuel equal to the
store size, which reproduces the JavaScript behaviour on every store whose
relevant subtree is acyclic (hypothesis `subtreeFits` below).
-/

namespace CipherStudio

/-- Error kinds surfaced by the controllers (HTTP 404, 400-conflict,
400-invalid-parent, 400-validation, 500).  `duplicate` is the MongoDB
duplicate-key rejection (E11000) raised by the unique indexes of the schema
when a write slips past the app-level checks; the `errorHandler` middleware
that maps it to an HTTP response is referenced by `middleware/index.js` but
absent from the sources, so only the fact that the request fails is
modelled. -/
inductive Err where
  | notFound
  | conflict
  | invalidParent
  | invalidName
  | internal
  | duplicate
deriving DecidableEq, Repr

/-- The `type` field of the schema: `enum: ["file", "folder"]`. -/
inductive FType where
  | file
  | folder
deriving DecidableEq, Repr

/-- One document of the `File` collection.  Fields not consulted by any
store logic (s3Key, language, size, metadata, permissions, ...) are omitted. -/
structure File where
  id : Nat
  projectId : Nat
  parentId : Option Nat
  type : FType
  name : String
  path : String
  content : String
deriving DecidableEq, Repr

/-- The `File` collection. -/
abbrev Store := List File

/-- Model of `File.findById`. -/
def findById (s : Store) (i : Nat) : Option File :=
  s.find? (fun n => n.id == i)

/-- The raw write performed by a successful `doc.save()`: the document is
written back by `_id`. -/
def save (s : Store) (m : File) : Store :=
  s.map (fun n => if n.id = m.id then m else n)

/-- Another stored document of the same project occupies `m.path`: writing
`m` would violate the unique index `{ projectId: 1, path: 1 }`
(schema, part_006 line 128). -/
def dupPath (s : Store) (m : File) : Bool :=
  s.any (fun n => !(n.id == m.id) && n.projectId == m.projectId && n.path == m.path)

/-- Another stored document of the same project has the same name under the
same parent: writing `m` would violate the unique index
`{ projectId: 1, name: 1, parentId: 1 }` (schema, part_006 line 129). -/
def dupNamePar (s : Store) (m : File) : Bool :=
  s.any (fun n => !(n.id == m.id) && n.projectId == m.projectId &&
    n.name == m.name && n.parentId == m.parentId)

/-- `doc.save()` succeeds exactly when neither unique index is violated;
otherwise MongoDB rejects the write with a duplicate-key error and the
document is not persisted. -/
def saveOk (s : Store) (m : File) : Bool :=
  !dupPath s m && !dupNamePar s m

/-- Model of `File.find({ parentId: i })`. -/
def childrenOf (s : Store) (i : Nat) : List File :=
  s.filter (fun n => n.parentId == some i)

/-- All `_id`s stored in `s`. -/
def ids (s : Store) : List Nat := s.map File.id

/-- Every stored document has a distinct `_id` (Mongo's `_id` unique index). -/
def distinctIds (s : Store) : Prop :=
  s.Pairwise (fun a b => a.id ≠ b.id)

instance (s : Store) : Decidable (distinctIds s) := by
  unfold distinctIds
  infer_instance

/-! ### JavaScript `String.prototype.replace` with a string pattern
(first occurrence only), used by `updateChildrenPaths`. -/

/-- Replace the first occurrence of `pat` in the list by `repl`. -/
def replaceFirstL (pat repl : List Char) : List Char → List Char
  | [] => if pat.isPrefixOf ([] : List Char) then repl else []
  | a :: l =>
    if pat.isPrefixOf (a :: l) then repl ++ List.drop pat.length (a :: l)
    else a :: replaceFirstL pat repl l

/-- First-occurrence replacement with a literal replacement string; the
`$`-free special case of JavaScript `String.prototype.replace`, used below
to characterise the cascade. -/
def replaceFirst (pat repl s : String) : String :=
  String.mk (replaceFirstL pat.data repl.data s.data)

/-- ECMAScript `GetSubstitution` for a string (capture-free) pattern: in the
replacement, `$$` yields `$`, `$&` the matched substring, `$` followed by a
backquote the part before the match, `$'` the part after it; any other `$`
is literal (there are no capture groups, so `$n` is not special). -/
def substL (matched before after : List Char) : List Char → List Char
  | [] => []
  | [c] => [c]
  | c :: d :: rest =>
    if c = '$' then
      if d = '$' then '$' :: substL matched before after rest
      else if d = '&' then matched ++ substL matched before after rest
      else if d = Char.ofNat 96 then before ++ substL matched before after rest
      else if d = Char.ofNat 39 then after ++ substL matched before after rest
      else c :: substL matched before after (d :: rest)
    else c :: substL matched before after (d :: rest)

/-- Scan for the first occurrence of `pat`; `seen` accumulates the part
already passed (reversed), feeding `GetSubstitution`. -/
def jsReplaceLAux (pat repl : List Char) : List Char → List Char → List Char
  | seen, [] =>
    if pat.isPrefixOf ([] : List Char) then substL pat seen.reverse [] repl else []
  | seen, a :: l =>
    if pat.isPrefixOf (a :: l) then
      substL pat seen.reverse (List.drop pat.length (a :: l)) repl ++
        List.drop pat.length (a :: l)
    else a :: jsReplaceLAux pat repl (a :: seen) l

/-- Model of `s.replace(pat, repl)` for a plain-string `pat`: first
occurrence only, with the `$`-substitution of the replacement string. -/
def jsReplace (pat repl s : String) : String :=
  String.mk (jsReplaceLAux pat.data repl.data [] s.data)

/-- No `$` occurs in the string, so it is inert under `GetSubstitution`. -/
def dollarFree (s : String) : Bool :=
  s.data.all (fun c => !(c == '$'))

/-! ### Descendant bookkeeping (parentId chains) -/

/-- Ids of all strict descendants of `i` reachable within `fuel` levels,
via the `parentId` back-references. -/
def subtreeIds : Nat → Store → Nat → List Nat
  | 0, _, _ => []
  | fuel + 1, s, i =>
    (childrenOf s i).flatMap (fun c => c.id :: subtreeIds fuel s c.id)

/-- The subtree below `i` has height at most `fuel`; this is exactly the
condition under which the recursive collection walks of the source terminate. -/
def subtreeFits : Nat → Store → Nat → Bool
  | 0, s, i => (childrenOf s i).isEmpty
  | fuel + 1, s, i => (childrenOf s i).all (fun c => subtreeFits fuel s c.id)

/-- Well-formedness of the subtree below `i`, all in one decidable package:
within `fuel` levels, every child's path extends its parent's by `"/" + name`,
every child that has children is a folder, and the subtree bottoms out (the
height bound that makes the source's recursive walks terminate). -/
def subtreeSane : Nat → Store → Nat → String → Bool
  | 0, s, i, _ => (childrenOf s i).isEmpty
  | fuel + 1, s, i, base =>
    (childrenOf s i).all (fun c =>
      c.path == base ++ "/" ++ c.name &&
      (c.type == FType.folder || (childrenOf s c.id).isEmpty) &&
      subtreeSane fuel s c.id c.path)

/-- Global materialized-path consistency: every node's `path` is its parent's
`path + "/" + name`, or its bare `name` at the root. -/
def pathOk (s : Store) : Bool :=
  s.all (fun n =>
    match n.parentId with
    | none => n.path == n.name
    | some pid =>
      match findById s pid with
      | some par => n.path == par.path ++ "/" ++ n.name
      | none => false)

/-! ### Validators (`middleware/validation.js`) -/

/-- Model of the validator's `.trim()` sanitizer: strip leading and trailing
whitespace. -/
def jsTrim (s : String) : String :=
  String.mk (((s.data.dropWhile Char.isWhitespace).reverse.dropWhile
    Char.isWhitespace).reverse)

/-- Characters rejected by the `create`/`update` filename rule
`/^[^<>:"\/\\|?*\x00-\x1f]+$/`. -/
def forbiddenChar (c : Char) : Bool :=
  c == '<' || c == '>' || c == ':' || c == '"' || c == '/' || c == '\\' ||
  c == '|' || c == '?' || c == '*' || decide (c.toNat ≤ 0x1f)

/-- Name rule of `fileValidation.create` and `fileValidation.update`:
trim, length between 1 and 255, and the character regex. -/
def validNodeName (nm : String) : Bool :=
  let t := jsTrim nm
  1 ≤ t.length && t.length ≤ 255 && t.data.all (fun c => !forbiddenChar c)

/-- Name rule of `fileValidation.move`: trim and length check only -- the
character regex is absent on this route. -/
def validMoveName (nm : String) : Bool :=
  let t := jsTrim nm
  1 ≤ t.length && t.length ≤ 255

/-- Does another document of the project already occupy `path`?  Models
`File.findOne({ projectId, path, _id: { $ne: selfId } })`. -/
def conflictAt (s : Store) (pid : Nat) (path : String) (selfId : Nat) : Bool :=
  s.any (fun m => m.projectId == pid && m.path == path && !(m.id == selfId))

/-- Does any document of the project occupy `path`?  Models
`File.findOne({ projectId, path })` in `createFile`. -/
def pathTaken (s : Store) (pid : Nat) (path : String) : Bool :=
  s.any (fun m => m.projectId == pid && m.path == path)

/-! ### `createFile` (POST /api/files) -/

structure CreateReq where
  name : String
  projectId : Nat
  parentId : Option Nat
  type : FType
  content : String
deriving Repr

/-- Path construction of `createFile`: resolve `parentId` (by id only -- the
parent's own project is never compared), 404 when it misses, 400 when it is
not a folder, else parent path + "/" + name (or the bare name at root). -/
def createPath (s : Store) (r : CreateReq) : Except Err String :=
  match r.parentId with
  | some pid =>
    match findById s pid with
    | none => .error .notFound
    | some par =>
      if par.type = FType.folder then .ok (par.path ++ "/" ++ r.name)
      else .error .invalidParent
  | none => .ok r.name

/-- Controller `createFile`: project existence, parent resolution, path
construction, conflict check, then insert.  `projects` is the set of existing
project ids; `newId` the `_id` Mongo assigns.  The insert (`File.create`) is
itself subject to the schema's unique indexes: the `{projectId, path}` one is
exactly the app-level `findOne` check just performed, while the
`{projectId, name, parentId}` one can still reject the insert with a
duplicate-key error. -/
def createFile (s : Store) (projects : List Nat) (r : CreateReq) (newId : Nat) :
    Store × Option Err :=
  if r.projectId ∈ projects then
    match createPath s r with
    | .error e => (s, some e)
    | .ok filePath =>
      if pathTaken s r.projectId filePath then
        (s, some .conflict)
      else
        let newDoc : File :=
          { id := newId, projectId := r.projectId, parentId := r.parentId,
            type := r.type, name := r.name, path := filePath,
            content := if r.type = FType.file then r.content else "" }
        if dupNamePar s newDoc then (s, some .duplicate)
        else (s ++ [newDoc], none)
  else (s, some .notFound)

/-- POST /api/files endpoint: `fileValidation.create` (which trims the name)
followed by the controller. -/
def createEndpoint (s : Store) (projects : List Nat) (r : CreateReq)
    (newId : Nat) : Store × Option Err :=
  if validNodeName r.name then
    createFile s projects { r with name := jsTrim r.name } newId
  else (s, some .invalidName)

/-! ### `updateChildrenPaths` (model instance method) -/

/-- Instance method `updateChildrenPaths(oldBasePath, newBasePath)`: fetch the
direct children, rewrite each child's path with
`child.path.replace(oldBasePath, newBasePath)` (first occurrence, with JS
`$`-substitution), `await child.save()`, and recurse into folders with the
child's own old/new paths.  A save hitting a unique index rejects; the
exception propagates out of the un-guarded `await`, so nothing further runs
(second component `false`) and every earlier write stays durable. -/
def updateChildrenPaths : Nat → Store → Nat → String → String → Store × Bool
  | 0, s, _, _, _ => (s, true)
  | fuel + 1, s, selfId, oldBase, newBase =>
    (childrenOf s selfId).foldl
      (fun st child =>
        match st with
        | (acc, false) => (acc, false)
        | (acc, true) =>
          let newChildPath := jsReplace oldBase newBase child.path
          let child1 : File := { child with path := newChildPath }
          if saveOk acc child1 then
            let acc1 := save acc child1
            if child.type = FType.folder then
              updateChildrenPaths fuel acc1 child.id child.path newChildPath
            else (acc1, true)
          else (acc, false))
      (s, true)

/-- The per-child step of the cascade's `for` loop, named for the proofs. -/
def cascadeStep (fuel : Nat) (oldBase newBase : String)
    (st : Store × Bool) (child : File) : Store × Bool :=
  match st with
  | (acc, false) => (acc, false)
  | (acc, true) =>
    let newChildPath := jsReplace oldBase newBase child.path
    let child1 : File := { child with path := newChildPath }
    if saveOk acc child1 then
      let acc1 := save acc child1
      if child.type = FType.folder then
        updateChildrenPaths fuel acc1 child.id child.path newChildPath
      else (acc1, true)
    else (acc, false)

/-! ### `moveTo` (model instance method) and `moveFile` (PUT /api/files/:id/move) -/

/-- Instance method `moveTo(newParentId, newName)`.  The new parent is looked
up by id; when the lookup misses, `newParent` is `null`, so `basePath` is `""`
and the node is persisted at root path while `parentId` is still set to the
raw `newParentId`.  No type or cycle validation is performed; the save can
still be rejected by a unique index, in which case the un-caught exception
fails the request with nothing persisted by this save. -/
def moveTo (s : Store) (f : File) (newParentId : Option Nat)
    (newName : Option String) : Store × Bool :=
  let oldPath := f.path
  let newParent : Option File :=
    match newParentId with
    | some pid => findById s pid
    | none => none
  let basePath := match newParent with | some p => p.path | none => ""
  let nm := match newName with
    | some n => if n = "" then f.name else n
    | none => f.name
  let newPath := if basePath = "" then nm else basePath ++ "/" ++ nm
  let f1 : File := { f with parentId := newParentId, name := nm, path := newPath }
  if saveOk s f1 then
    let s1 := save s f1
    if f.type = FType.folder then
      updateChildrenPaths s1.length s1 f.id oldPath newPath
    else (s1, true)
  else (s, false)

/-- Controller `moveFile`: find the document, then `moveTo`; a save rejected
by a unique index propagates out as a failed request. -/
def moveFile (s : Store) (fileId : Nat) (parentId : Option Nat)
    (name : Option String) : Store × Option Err :=
  match findById s fileId with
  | none => (s, some .notFound)
  | some f =>
    let r := moveTo s f parentId name
    (r.1, if r.2 then none else some .duplicate)

/-- PUT /api/files/:id/move endpoint: `fileValidation.move` (trim plus length
only) followed by the controller. -/
def moveEndpoint (s : Store) (fileId : Nat) (parentId : Option Nat)
    (name : Option String) : Store × Option Err :=
  match name with
  | some nm =>
    if validMoveName nm then moveFile s fileId parentId (some (jsTrim nm))
    else (s, some .invalidName)
  | none => moveFile s fileId parentId none

/-! ### `updateFile` (PUT /api/files/:id) -/

structure UpdateReq where
  name : Option String := none
  content : Option String := none
  /-- `none` = field absent; `some none` = explicit `null` (move to root). -/
  parentId : Option (Option Nat) := none
deriving Repr

/-- Name-change branch of `updateFile` (`if (name && name !== file.name)`).
The parent path is read through `file.parentId`; a dangling parent makes the
JavaScript dereference `null.path` and the request die with a 500. -/
def nameStep (s : Store) (f0 : File) (nm? : Option String) :
    Except Err (File × String) :=
  match nm? with
  | none => .ok (f0, f0.path)
  | some nm =>
    if nm ≠ "" ∧ nm ≠ f0.name then
      match f0.parentId with
      | none =>
        if conflictAt s f0.projectId nm f0.id then .error .conflict
        else .ok ({ f0 with name := nm, path := nm }, nm)
      | some pid =>
        match findById s pid with
        | none => .error .internal
        | some par =>
          let newPath := if par.path = "" then nm else par.path ++ "/" ++ nm
          if conflictAt s f0.projectId newPath f0.id then .error .conflict
          else .ok ({ f0 with name := nm, path := newPath }, newPath)
    else .ok (f0, f0.path)

/-- Content branch of `updateFile` (`content !== undefined && type === "file"`). -/
def contentStep (f1 : File) (c? : Option String) : File :=
  match c? with
  | some c => if f1.type = FType.file then { f1 with content := c } else f1
  | none => f1

/-- Parent-change branch of `updateFile`
(`parentId !== undefined && parentId !== file.parentId?.toString()`).
Unlike `moveTo`, it verifies the new parent exists and is a folder (but not
that it is outside the moved node's subtree, nor its project). -/
def parentStep (s : Store) (f2 : File) (curPath : String)
    (p? : Option (Option Nat)) : Except Err (File × String) :=
  match p? with
  | none => .ok (f2, curPath)
  | some pnew =>
    let branch : Bool :=
      match pnew, f2.parentId with
      | some x, some y => x != y
      | some _, none => true
      | none, _ => true
    if branch then
      match pnew with
      | some pid =>
        match findById s pid with
        | some par =>
          if par.type = FType.folder then
            let newPath := par.path ++ "/" ++ f2.name
            if conflictAt s f2.projectId newPath f2.id then .error .conflict
            else .ok ({ f2 with parentId := some pid, path := newPath }, newPath)
          else .error .invalidParent
        | none => .error .invalidParent
      | none =>
        if conflictAt s f2.projectId f2.name f2.id then .error .conflict
        else .ok ({ f2 with parentId := none, path := f2.name }, f2.name)
    else .ok (f2, curPath)

/-- Controller `updateFile`: name change, content update, parent change (each
guarded, each able to bail out before anything is saved), one `save`, then the
descendant-path cascade when a folder's path changed. -/
def updateFile (s : Store) (fileId : Nat) (r : UpdateReq) : Store × Option Err :=
  match findById s fileId with
  | none => (s, some .notFound)
  | some file0 =>
    let oldPath := file0.path
    match nameStep s file0 r.name with
    | .error e => (s, some e)
    | .ok (f1, path1) =>
      let f2 := contentStep f1 r.content
      match parentStep s f2 f1.path r.parentId with
      | .error e => (s, some e)
      | .ok (f3, newPath) =>
        if saveOk s f3 then
          let s1 := save s f3
          if f3.type = FType.folder ∧ newPath ≠ oldPath then
            let res := updateChildrenPaths s1.length s1 f3.id oldPath newPath
            (res.1, if res.2 then none else some .duplicate)
          else (s1, none)
        else (s, some .duplicate)

/-- PUT /api/files/:id endpoint: `fileValidation.update` (same name rule as
create, applied to the trimmed name) followed by the controller. -/
def updateEndpoint (s : Store) (fileId : Nat) (r : UpdateReq) :
    Store × Option Err :=
  match r.name with
  | some nm =>
    if validNodeName nm then updateFile s fileId { r with name := some (jsTrim nm) }
    else (s, some .invalidName)
  | none => updateFile s fileId r

/-! ### `deleteRecursively` / `deleteFile` (DELETE /api/files/:id) -/

/-- Instance method `deleteRecursively`: for a folder, delete every child's
subtree first, then delete the document itself (by `_id`). -/
def deleteRecursively : Nat → Store → File → Store
  | 0, s, _ => s
  | fuel + 1, s, f =>
    let s1 :=
      if f.type = FType.folder then
        (childrenOf s f.id).foldl (fun acc child => deleteRecursively fuel acc child) s
      else s
    s1.filter (fun n => ¬ n.id = f.id)

/-- Controller `deleteFile`: 404 when the id resolves to nothing, otherwise
recursive delete (S3 cleanup omitted: it does not touch the collection). -/
def deleteFile (s : Store) (fileId : Nat) : Store × Option Err :=
  match findById s fileId with
  | none => (s, some .notFound)
  | some f => (deleteRecursively s.length s f, none)

/-! ### `buildFileTree` (GET /api/files/project/:projectId/tree) -/

/-- Result shape of `buildFileTree`: a node together with its (possibly empty)
`children` array. -/
inductive FTree where
  | mk : File → List FTree → FTree

def FTree.root : FTree → File
  | .mk n _ => n

def FTree.kids : FTree → List FTree
  | .mk _ c => c

/-- Rank used by the Mongo sort `{ type: -1, name: 1 }`: descending on the
type string puts `"folder"` before `"file"`. -/
def typeRank : FType → Nat
  | .folder => 0
  | .file => 1

/-- The sort order `{ type: -1, name: 1 }` as a Boolean relation. -/
def fileLe (a b : File) : Bool :=
  decide (typeRank a.type < typeRank b.type) ||
  (a.type == b.type && decide (a.name ≤ b.name))

instance : DecidableRel (fun a b : File => fileLe a b = true) :=
  fun _ _ => instDecidableEqBool _ _

/-- Model of `this.find({ projectId, parentId }).sort({ type: -1, name: 1 })`
with a stable sort. -/
def sortNodes (l : List File) : List File :=
  List.insertionSort (fun a b => fileLe a b = true) l

/-- Static `buildFileTree(projectId, parentId = null)`: fetch and sort one
level, recurse into folders. -/
def buildFileTree : Nat → Store → Nat → Option Nat → List FTree
  | 0, _, _, _ => []
  | fuel + 1, s, pid, par =>
    let files := sortNodes (s.filter (fun n => n.projectId == pid && n.parentId == par))
    files.map (fun f =>
      FTree.mk f (if f.type = FType.folder then buildFileTree fuel s pid (some f.id) else []))

/-- All `File` records appearing anywhere in a tree node. -/
def flattenT : FTree → List File
  | .mk f c => f :: c.attach.flatMap (fun x => flattenT x.val)
termination_by t => sizeOf t
decreasing_by
  simp_wf
  have := List.sizeOf_lt_of_mem x.property
  omega

/-- One level of a tree obeys the sort `{ type: -1, name: 1 }`. -/
def levelOrdered (c : List FTree) : Prop :=
  List.Pairwise (fun a b => fileLe a.root b.root = true) c

mutual

/-- Every level of the tree obeys the sort `{ type: -1, name: 1 }`. -/
def treeOrdered : FTree → Prop
  | .mk _ c => levelOrdered c ∧ forestOrdered c

/-- Every tree of the forest is ordered at every level. -/
def forestOrdered : List FTree → Prop
  | [] => True
  | t :: ts => treeOrdered t ∧ forestOrdered ts

end

/-! ### Fault-injected cascade, for the all-or-nothing question

`updateChildrenPaths` performs one independent `child.save()` per descendant,
with no transaction or rollback.  To reason about a failing descendant update
we index the saves (depth-first, in source order) and let the `failAt`-th one
reject: the write is not applied and the exception propagates, leaving every
earlier write durable. -/

/-- Fault-injected `updateChildrenPaths`.  State: (durable store, number of
save attempts so far, pending error); the `failAt`-th save rejects with an
infrastructure error, a unique-index violation rejects with a duplicate-key
error, and in either case the exception propagates and nothing further
runs. -/
def updateChildrenPathsF (failAt : Nat) :
    Nat → Store → Nat → String → String → Nat → Store × Nat × Option Err
  | 0, s, _, _, _, k => (s, k, none)
  | fuel + 1, s, selfId, oldBase, newBase, k =>
    (childrenOf s selfId).foldl
      (fun st child =>
        match st with
        | (acc, k, some e) => (acc, k, some e)
        | (acc, k, none) =>
          if k = failAt then (acc, k + 1, some .internal)
          else
            let newChildPath := jsReplace oldBase newBase child.path
            let child1 : File := { child with path := newChildPath }
            if saveOk acc child1 then
              let acc1 := save acc child1
              if child.type = FType.folder then
                updateChildrenPathsF failAt fuel acc1 child.id child.path newChildPath (k + 1)
              else (acc1, k + 1, none)
            else (acc, k + 1, some .duplicate))
      (s, k, none)

/-- The per-child step of the fault-injected cascade, named for the proofs. -/
def cascadeStepF (failAt fuel : Nat) (oldBase newBase : String)
    (st : Store × Nat × Option Err) (child : File) : Store × Nat × Option Err :=
  match st with
  | (acc, k, some e) => (acc, k, some e)
  | (acc, k, none) =>
    if k = failAt then (acc, k + 1, some .internal)
    else
      let newChildPath := jsReplace oldBase newBase child.path
      let child1 : File := { child with path := newChildPath }
      if saveOk acc child1 then
        let acc1 := save acc child1
        if child.type = FType.folder then
          updateChildrenPathsF failAt fuel acc1 child.id child.path newChildPath (k + 1)
        else (acc1, k + 1, none)
      else (acc, k + 1, some .duplicate)

/-- `updateFile` with the fault-injected cascade: a rejected descendant save
surfaces as a failed request through the async handler, with every earlier
write durable. -/
def updateFileF (failAt : Nat) (s : Store) (fileId : Nat) (r : UpdateReq) :
    Store × Option Err :=
  match findById s fileId with
  | none => (s, some .notFound)
  | some file0 =>
    let oldPath := file0.path
    match nameStep s file0 r.name with
    | .error e => (s, some e)
    | .ok (f1, path1) =>
      let f2 := contentStep f1 r.content
      match parentStep s f2 f1.path r.parentId with
      | .error e => (s, some e)
      | .ok (f3, newPath) =>
        if saveOk s f3 then
          let s1 := save s f3
          if f3.type = FType.folder ∧ newPath ≠ oldPath then
            let res := updateChildrenPathsF failAt s1.length s1 f3.id oldPath newPath 0
            (res.1, res.2.2)
          else (s1, none)
        else (s, some .duplicate)

/-! ## Basic store lemmas -/

theorem mem_childrenOf {s : Store} {i : Nat} {c : File} :
    c ∈ childrenOf s i ↔ c ∈ s ∧ c.parentId = some i := by
  simp [childrenOf, List.mem_filter]

theorem childrenOf_subset {s : Store} {i : Nat} : childrenOf s i ⊆ s :=
  fun _ h => (mem_childrenOf.1 h).1

theorem eq_of_id_eq : ∀ {s : Store} {n m : File}, distinctIds s →
    n ∈ s → m ∈ s → n.id = m.id → n = m := by
  intro s
  induction s with
  | nil => intro n m _ hn _ _; cases hn
  | cons a t ih =>
    intro n m hd hn hm h
    rcases List.pairwise_cons.1 hd with ⟨ha, ht⟩
    rcases List.mem_cons.1 hn with h1 | h1 <;> rcases List.mem_cons.1 hm with h2 | h2
    · rw [h1, h2]
    · exact absurd (by rw [← h1]; exact h) (ha m h2)
    · exact absurd (by rw [← h2]; exact h.symm) (ha n h1)
    · exact ih ht h1 h2 h

theorem findById_mem {s : Store} {i : Nat} {n : File}
    (h : findById s i = some n) : n ∈ s ∧ n.id = i := by
  refine ⟨List.mem_of_find?_eq_some h, ?_⟩
  have := List.find?_some h
  simpa using this

theorem findById_eq_none {s : Store} {i : Nat} :
    findById s i = none ↔ ∀ n ∈ s, n.id ≠ i := by
  simp [findById, List.find?_eq_none]

theorem findById_of_mem {s : Store} {n : File} (hd : distinctIds s)
    (hn : n ∈ s) : findById s n.id = some n := by
  cases h : findById s n.id with
  | none => exact absurd rfl (findById_eq_none.1 h n hn)
  | some m =>
    rcases findById_mem h with ⟨hm, hid⟩
    rw [eq_of_id_eq hd hm hn hid]

theorem save_eq_map (s : Store) (m : File) :
    save s m = s.map (fun n => if n.id = m.id then m else n) := rfl

theorem length_save (s : Store) (m : File) : (save s m).length = s.length := by
  simp [save]

theorem childrenOf_map {s : Store} {i : Nat} {g : File → File}
    (h : ∀ n, (g n).parentId = n.parentId) :
    childrenOf (s.map g) i = (childrenOf s i).map g := by
  induction s with
  | nil => rfl
  | cons a t ih =>
    simp only [List.map_cons, childrenOf, List.filter_cons] at *
    rw [h a]
    cases a.parentId == some i <;> simp [ih]

theorem distinctIds_map {s : Store} {g : File → File}
    (h : ∀ n, (g n).id = n.id) (hd : distinctIds s) : distinctIds (s.map g) := by
  unfold distinctIds at *
  rw [List.pairwise_map]
  refine hd.imp ?_
  intro a b hab
  rw [h a, h b]; exact hab

theorem distinctIds_filter {s : Store} (p : File → Bool) (hd : distinctIds s) :
    distinctIds (s.filter p) :=
  hd.sublist (List.filter_sublist s)

/-! ## Lemmas about the first-occurrence replace -/

theorem isPrefixOf_append_self (l t : List Char) : l.isPrefixOf (l ++ t) = true := by
  induction l with
  | nil => simp
  | cons a l ih => simp [List.isPrefixOf_cons₂, ih]

theorem replaceFirstL_append_self (pat repl t : List Char) :
    replaceFirstL pat repl (pat ++ t) = repl ++ t := by
  cases h : pat ++ t with
  | nil =>
    rcases List.append_eq_nil.1 h with ⟨h1, h2⟩
    subst h1; subst h2
    simp [replaceFirstL, List.isPrefixOf]
  | cons a l =>
    have hpre : pat.isPrefixOf (a :: l) = true := h ▸ isPrefixOf_append_self pat t
    have hdrop : List.drop pat.length (a :: l) = t := by
      rw [← h]; exact List.drop_left pat t
    rw [← h, h]
    simp only [replaceFirstL, hpre, if_pos, hdrop]

theorem data_append (a b : String) : (a ++ b).data = a.data ++ b.data := rfl

theorem mk_data_append (a b : String) :
    String.mk (a.data ++ b.data) = a ++ b := rfl

theorem replaceFirst_append_self (p q t : String) :
    replaceFirst p q (p ++ t) = q ++ t := by
  unfold replaceFirst
  rw [data_append, replaceFirstL_append_self, mk_data_append]

/-- A `$`-free replacement string is inert under `GetSubstitution`. -/
theorem substL_no_dollar (m b a : List Char) :
    ∀ (repl : List Char), ('$' : Char) ∉ repl → substL m b a repl = repl := by
  intro repl
  induction repl with
  | nil => intro _; rfl
  | cons c rest ih =>
    intro h
    have hc : c ≠ '$' := fun hh => h (hh ▸ List.mem_cons_self c rest)
    cases rest with
    | nil => rfl
    | cons d rest2 =>
      simp only [substL]
      rw [if_neg hc, ih (fun hm => h (List.mem_cons_of_mem c hm))]

/-- With a `$`-free replacement, the JS replace is the literal first-occurrence
replacement. -/
theorem jsReplaceLAux_no_dollar (pat repl : List Char) (h : ('$' : Char) ∉ repl) :
    ∀ (s seen : List Char), jsReplaceLAux pat repl seen s = replaceFirstL pat repl s := by
  intro s
  induction s with
  | nil =>
    intro seen
    simp only [jsReplaceLAux, replaceFirstL]
    split
    · rw [substL_no_dollar _ _ _ _ h]
    · rfl
  | cons a l ih =>
    intro seen
    simp only [jsReplaceLAux, replaceFirstL]
    split
    · rw [substL_no_dollar _ _ _ _ h]
    · rw [ih]

theorem dollarFree_iff (s : String) : dollarFree s = true ↔ ('$' : Char) ∉ s.data := by
  unfold dollarFree
  rw [List.all_eq_true]
  constructor
  · intro h hm
    have := h _ hm
    simp at this
  · intro h c hc
    by_cases hce : c = '$'
    · exact absurd (hce ▸ hc) h
    · simp [hce]

theorem jsReplace_no_dollar (pat repl s : String) (h : dollarFree repl = true) :
    jsReplace pat repl s = replaceFirst pat repl s := by
  unfold jsReplace replaceFirst
  rw [jsReplaceLAux_no_dollar _ _ ((dollarFree_iff repl).1 h)]

theorem dollarFree_append (a b : String) :
    dollarFree (a ++ b) = (dollarFree a && dollarFree b) := by
  unfold dollarFree
  rw [show (a ++ b).data = a.data ++ b.data from rfl, List.all_append]

/-- Replacing with a `$`-free string inside a `$`-free string stays
`$`-free. -/
theorem replaceFirstL_dollarFree : ∀ (pat repl s : List Char),
    ('$' : Char) ∉ repl → ('$' : Char) ∉ s →
    ('$' : Char) ∉ replaceFirstL pat repl s := by
  intro pat repl s
  induction s with
  | nil =>
    intro hr hs
    simp only [replaceFirstL]
    split
    · exact hr
    · exact hs
  | cons a l ih =>
    intro hr hs
    simp only [replaceFirstL]
    split
    · intro hm
      rcases List.mem_append.1 hm with hm | hm
      · exact hr hm
      · exact hs (List.drop_subset _ _ hm)
    · intro hm
      rcases List.mem_cons.1 hm with hm | hm
      · exact hs (hm ▸ List.mem_cons_self a l)
      · exact ih hr (fun hx => hs (List.mem_cons_of_mem a hx)) hm

theorem replaceFirst_dollarFree (pat repl s : String) (hr : dollarFree repl = true)
    (hs : dollarFree s = true) : dollarFree (replaceFirst pat repl s) = true := by
  rw [dollarFree_iff] at hr hs ⊢
  exact replaceFirstL_dollarFree pat.data repl.data s.data hr hs

/-! ### Unfolding lemmas for the cascade -/

theorem updateChildrenPaths_succ (fuel : Nat) (s : Store) (selfId : Nat)
    (p q : String) :
    updateChildrenPaths (fuel + 1) s selfId p q =
      (childrenOf s selfId).foldl (cascadeStep fuel p q) (s, true) := rfl

theorem cascadeStep_false (fuel : Nat) (p q : String) (acc : Store) (c : File) :
    cascadeStep fuel p q (acc, false) c = (acc, false) := rfl

theorem cascadeStep_true (fuel : Nat) (p q : String) (acc : Store) (c : File) :
    cascadeStep fuel p q (acc, true) c =
      (if saveOk acc { c with path := jsReplace p q c.path } then
        (if c.type = FType.folder then
          updateChildrenPaths fuel (save acc { c with path := jsReplace p q c.path })
            c.id c.path (jsReplace p q c.path)
        else (save acc { c with path := jsReplace p q c.path }, true))
      else (acc, false)) := rfl

theorem updateChildrenPathsF_succ (failAt fuel : Nat) (s : Store) (selfId : Nat)
    (p q : String) (k : Nat) :
    updateChildrenPathsF failAt (fuel + 1) s selfId p q k =
      (childrenOf s selfId).foldl (cascadeStepF failAt fuel p q) (s, k, none) := rfl

theorem cascadeStepF_none (failAt fuel : Nat) (p q : String) (acc : Store)
    (k : Nat) (c : File) :
    cascadeStepF failAt fuel p q (acc, k, none) c =
      (if k = failAt then (acc, k + 1, some Err.internal)
       else if saveOk acc { c with path := jsReplace p q c.path } then
         (if c.type = FType.folder then
           updateChildrenPathsF failAt fuel (save acc { c with path := jsReplace p q c.path })
             c.id c.path (jsReplace p q c.path) (k + 1)
         else (save acc { c with path := jsReplace p q c.path }, k + 1, none))
       else (acc, k + 1, some Err.duplicate)) := rfl

/-- Once a cascade save has rejected, the rest of the loop does nothing. -/
theorem cascade_foldl_frozen (fuel : Nat) (p q : String) :
    ∀ (l : List File) (acc : Store),
    l.foldl (cascadeStep fuel p q) (acc, false) = (acc, false) := by
  intro l
  induction l with
  | nil => intro acc; rfl
  | cons a t ih =>
    intro acc
    rw [List.foldl_cons, cascadeStep_false, ih]

/-! ## Lemmas about descendant-id sets -/

theorem mem_subtreeIds_succ {f : Nat} {s : Store} {i j : Nat} :
    j ∈ subtreeIds (f + 1) s i ↔
      ∃ c ∈ childrenOf s i, j = c.id ∨ j ∈ subtreeIds f s c.id := by
  simp [subtreeIds, List.mem_flatMap, List.mem_cons]

theorem child_id_mem {f : Nat} {s : Store} {i : Nat} {c : File}
    (hc : c ∈ childrenOf s i) : c.id ∈ subtreeIds (f + 1) s i :=
  mem_subtreeIds_succ.2 ⟨c, hc, Or.inl rfl⟩

theorem mem_of_child_mem {f : Nat} {s : Store} {i : Nat} {c : File} {x : Nat}
    (hc : c ∈ childrenOf s i) (hx : x ∈ subtreeIds f s c.id) :
    x ∈ subtreeIds (f + 1) s i :=
  mem_subtreeIds_succ.2 ⟨c, hc, Or.inr hx⟩

theorem subtreeIds_subset_ids : ∀ (f : Nat) (s : Store) (i j : Nat),
    j ∈ subtreeIds f s i → j ∈ ids s := by
  intro f
  induction f with
  | zero => intro s i j h; cases h
  | succ f ih =>
    intro s i j h
    rcases mem_subtreeIds_succ.1 h with ⟨c, hc, h2⟩
    rcases h2 with rfl | h2
    · exact List.mem_map_of_mem File.id (childrenOf_subset hc)
    · exact ih s c.id j h2

theorem subtreeFits_child {K : Nat} {s : Store} {i : Nat} {c : File}
    (hfit : subtreeFits (K + 1) s i = true) (hc : c ∈ childrenOf s i) :
    subtreeFits K s c.id = true := by
  unfold subtreeFits at hfit
  exact List.all_eq_true.1 hfit c hc

theorem subtreeFits_zero_no_child {s : Store} {i : Nat} {c : File}
    (hfit : subtreeFits 0 s i = true) (hc : c ∈ childrenOf s i) : False := by
  unfold subtreeFits at hfit
  rw [List.isEmpty_iff] at hfit
  rw [hfit] at hc
  cases hc

theorem subtreeIds_le_of_fits : ∀ (f K : Nat) (s : Store) (i j : Nat),
    subtreeFits K s i = true → j ∈ subtreeIds f s i → j ∈ subtreeIds K s i := by
  intro f
  induction f with
  | zero => intro K s i j _ h; cases h
  | succ f ih =>
    intro K s i j hfit h
    rcases mem_subtreeIds_succ.1 h with ⟨c, hc, h2⟩
    cases K with
    | zero => exact absurd hc (fun hc => subtreeFits_zero_no_child hfit hc)
    | succ K =>
      have hcfit := subtreeFits_child hfit hc
      rcases h2 with rfl | h2
      · exact child_id_mem hc
      · exact mem_of_child_mem hc (ih K s c.id j hcfit h2)

theorem child_of_mem_subtree : ∀ (f : Nat) (s : Store) (r j : Nat) (c : File),
    j ∈ subtreeIds f s r → c ∈ childrenOf s j → c.id ∈ subtreeIds (f + 1) s r := by
  intro f
  induction f with
  | zero => intro s r j c h; cases h
  | succ f ih =>
    intro s r j c h hc
    rcases mem_subtreeIds_succ.1 h with ⟨c', hc', h2⟩
    rcases h2 with rfl | h2
    · exact mem_of_child_mem hc' (child_id_mem hc)
    · exact mem_of_child_mem hc' (ih s c'.id j c h2 hc)

theorem selfParent_not_fits : ∀ (K : Nat) (s : Store) (c : File),
    c ∈ s → c.parentId = some c.id → subtreeFits K s c.id = false := by
  intro K
  induction K with
  | zero =>
    intro s c hc hp
    have hmem : c ∈ childrenOf s c.id := mem_childrenOf.2 ⟨hc, hp⟩
    rcases h : subtreeFits 0 s c.id with _ | _
    · rfl
    · exact absurd hmem (fun hmem => subtreeFits_zero_no_child h hmem)
  | succ K ih =>
    intro s c hc hp
    have hmem : c ∈ childrenOf s c.id := mem_childrenOf.2 ⟨hc, hp⟩
    rcases h : subtreeFits (K + 1) s c.id with _ | _
    · rfl
    · exfalso
      have := subtreeFits_child h hmem
      rw [ih s c hc hp] at this
      cases this

theorem not_self_mem_subtree_fits : ∀ (K : Nat) (s : Store) (i : Nat),
    subtreeFits K s i = true → i ∉ subtreeIds K s i := by
  intro K
  induction K with
  | zero => intro s i _ h; cases h
  | succ K ih =>
    intro s i hfit h
    rcases mem_subtreeIds_succ.1 h with ⟨c, hc, h2⟩
    have hcfit := subtreeFits_child hfit hc
    rcases h2 with rfl | h2
    · have hp : c.parentId = some c.id := (mem_childrenOf.1 hc).2
      rw [selfParent_not_fits K s c (mem_childrenOf.1 hc).1 hp] at hcfit
      cases hcfit
    · have h3 : c.id ∈ subtreeIds (K + 1) s c.id :=
        child_of_mem_subtree K s c.id i c h2 hc
      have h4 : c.id ∈ subtreeIds K s c.id :=
        subtreeIds_le_of_fits (K + 1) K s c.id c.id hcfit h3
      exact ih s c.id hcfit h4

theorem not_self_mem_subtree {f K : Nat} {s : Store} {i : Nat}
    (hfit : subtreeFits K s i = true) : i ∉ subtreeIds f s i :=
  fun h =>
    not_self_mem_subtree_fits K s i hfit (subtreeIds_le_of_fits f K s i i hfit h)

theorem parent_in_closure : ∀ (f : Nat) (s : Store) (i j : Nat),
    j ∈ subtreeIds (f + 1) s i →
    ∃ n ∈ s, n.id = j ∧ ∃ m, n.parentId = some m ∧ (m = i ∨ m ∈ subtreeIds f s i) := by
  intro f
  induction f with
  | zero =>
    intro s i j h
    rcases mem_subtreeIds_succ.1 h with ⟨c, hc, h2⟩
    rcases h2 with rfl | h2
    · exact ⟨c, (mem_childrenOf.1 hc).1, rfl, i, (mem_childrenOf.1 hc).2, Or.inl rfl⟩
    · cases h2
  | succ f ih =>
    intro s i j h
    rcases mem_subtreeIds_succ.1 h with ⟨c, hc, h2⟩
    rcases h2 with rfl | h2
    · exact ⟨c, (mem_childrenOf.1 hc).1, rfl, i, (mem_childrenOf.1 hc).2, Or.inl rfl⟩
    · rcases ih s c.id j h2 with ⟨n, hn, hid, m, hpm, hm⟩
      refine ⟨n, hn, hid, m, hpm, Or.inr ?_⟩
      rcases hm with rfl | hm
      · exact child_id_mem hc
      · exact mem_of_child_mem hc hm

theorem child_not_mem_sibling_subtree {f K : Nat} {s : Store} {root : Nat}
    {c1 c2 : File} (hd : distinctIds s) (hfit : subtreeFits K s root = true)
    (h1 : c1 ∈ childrenOf s root) (h2 : c2 ∈ childrenOf s root) :
    c1.id ∉ subtreeIds f s c2.id := by
  intro hmem
  cases f with
  | zero => cases hmem
  | succ f =>
    rcases parent_in_closure f s c2.id c1.id hmem with ⟨n, hn, hid, m, hpm, hm⟩
    have hnc : n = c1 := eq_of_id_eq hd hn (childrenOf_subset h1) hid
    subst hnc
    have hmr : m = root := by
      have := (mem_childrenOf.1 h1).2
      rw [this] at hpm
      exact (Option.some.inj hpm).symm
    subst hmr
    rcases hm with hm | hm
    · have hp2 : c2.parentId = some c2.id := by
        rw [(mem_childrenOf.1 h2).2, hm]
      cases K with
      | zero => exact subtreeFits_zero_no_child hfit h2
      | succ K =>
        have := subtreeFits_child hfit h2
        rw [selfParent_not_fits K s c2 (childrenOf_subset h2) hp2] at this
        cases this
    · exact not_self_mem_subtree hfit (mem_of_child_mem h2 hm)

theorem sibling_subtrees_disjoint :
    ∀ (f : Nat) {K : Nat} {s : Store} {root : Nat} {c1 c2 : File} {j : Nat},
    distinctIds s → subtreeFits K s root = true →
    c1 ∈ childrenOf s root → c2 ∈ childrenOf s root → c1.id ≠ c2.id →
    j ∈ subtreeIds f s c1.id → j ∈ subtreeIds f s c2.id → False := by
  intro f
  induction f with
  | zero => intro K s root c1 c2 j _ _ _ _ _ h; cases h
  | succ f ih =>
    intro K s root c1 c2 j hd hfit h1 h2 hne hj1 hj2
    rcases parent_in_closure f s c1.id j hj1 with ⟨n1, hn1, hid1, m1, hpm1, hm1⟩
    rcases parent_in_closure f s c2.id j hj2 with ⟨n2, hn2, hid2, m2, hpm2, hm2⟩
    have hnn : n1 = n2 := eq_of_id_eq hd hn1 hn2 (hid1.trans hid2.symm)
    subst hnn
    have hmm : m1 = m2 := by
      rw [hpm1] at hpm2
      exact Option.some.inj hpm2
    subst hmm
    rcases hm1 with rfl | hm1 <;> rcases hm2 with hm2 | hm2
    · exact hne hm2
    · exact child_not_mem_sibling_subtree hd hfit h1 h2 hm2
    · rw [hm2] at hm1
      exact child_not_mem_sibling_subtree hd hfit h2 h1 hm1
    · exact ih hd hfit h1 h2 hne hm1 hm2

/-! ## Lemmas about sane subtrees -/

theorem str_append_assoc (a b c : String) : a ++ b ++ c = a ++ (b ++ c) :=
  congrArg String.mk (List.append_assoc a.data b.data c.data)

theorem subtreeSane_child {f : Nat} {s : Store} {i : Nat} {base : String}
    {c : File} (h : subtreeSane (f + 1) s i base = true)
    (hc : c ∈ childrenOf s i) :
    c.path = base ++ "/" ++ c.name ∧
    (c.type = FType.folder ∨ childrenOf s c.id = []) ∧
    subtreeSane f s c.id c.path = true := by
  unfold subtreeSane at h
  have := List.all_eq_true.1 h c hc
  simp only [Bool.and_eq_true, Bool.or_eq_true, beq_iff_eq, List.isEmpty_iff] at this
  exact ⟨this.1.1, this.1.2, this.2⟩

theorem subtreeSane_fits : ∀ (f : Nat) (s : Store) (i : Nat) (base : String),
    subtreeSane f s i base = true → subtreeFits f s i = true := by
  intro f
  induction f with
  | zero => intro s i base h; exact h
  | succ f ih =>
    intro s i base h
    unfold subtreeFits
    rw [List.all_eq_true]
    intro c hc
    exact ih s c.id c.path (subtreeSane_child h hc).2.2

theorem subtreeIds_of_no_children {f : Nat} {s : Store} {i : Nat}
    (h : childrenOf s i = []) : subtreeIds f s i = [] := by
  cases f with
  | zero => rfl
  | succ f => simp [subtreeIds, h]

theorem path_of_mem_subtree : ∀ (f : Nat) (s : Store) (i : Nat) (base : String)
    (n : File), distinctIds s → subtreeSane f s i base = true → n ∈ s →
    n.id ∈ subtreeIds f s i → ∃ t, n.path = base ++ "/" ++ t := by
  intro f
  induction f with
  | zero => intro s i base n _ _ _ h; cases h
  | succ f ih =>
    intro s i base n hd hsane hn h
    rcases mem_subtreeIds_succ.1 h with ⟨c, hc, h2⟩
    rcases subtreeSane_child hsane hc with ⟨hpath, _, hcsane⟩
    rcases h2 with h2 | h2
    · have : n = c := eq_of_id_eq hd hn (childrenOf_subset hc) h2
      exact ⟨c.name, by rw [this, hpath]⟩
    · rcases ih s c.id c.path n hd hcsane hn h2 with ⟨t, ht⟩
      refine ⟨c.name ++ "/" ++ t, ?_⟩
      rw [ht, hpath]
      simp only [str_append_assoc]

theorem flatMap_congr_mem {α β : Type} {l : List α} {f g : α → List β}
    (h : ∀ a ∈ l, f a = g a) : l.flatMap f = l.flatMap g := by
  induction l with
  | nil => rfl
  | cons a t ih =>
    simp only [List.flatMap_cons]
    rw [h a (List.mem_cons_self a t), ih (fun x hx => h x (List.mem_cons_of_mem a hx))]

theorem all_congr_mem {α : Type} {l : List α} {f g : α → Bool}
    (h : ∀ a ∈ l, f a = g a) : l.all f = l.all g := by
  induction l with
  | nil => rfl
  | cons a t ih =>
    simp only [List.all_cons]
    rw [h a (List.mem_cons_self a t), ih (fun x hx => h x (List.mem_cons_of_mem a hx))]

/-- Stores that agree on the children of every node in the closure of `i`
have the same descendant ids, the same height bound, and the same sanity
below `i`. -/
theorem subtree_transfer : ∀ (f : Nat) (s s' : Store) (i : Nat),
    (∀ j, j ∈ i :: subtreeIds f s i → childrenOf s' j = childrenOf s j) →
    subtreeIds f s' i = subtreeIds f s i ∧
    subtreeFits f s' i = subtreeFits f s i ∧
    ∀ base, subtreeSane f s' i base = subtreeSane f s i base := by
  intro f
  induction f with
  | zero =>
    intro s s' i h
    have hci := h i (List.mem_cons_self i _)
    refine ⟨rfl, ?_, fun base => ?_⟩
    · unfold subtreeFits; rw [hci]
    · unfold subtreeSane; rw [hci]
  | succ f ih =>
    intro s s' i h
    have hci : childrenOf s' i = childrenOf s i := h i (List.mem_cons_self i _)
    have hrec : ∀ c ∈ childrenOf s i,
        subtreeIds f s' c.id = subtreeIds f s c.id ∧
        subtreeFits f s' c.id = subtreeFits f s c.id ∧
        ∀ base, subtreeSane f s' c.id base = subtreeSane f s c.id base := by
      intro c hc
      refine ih s s' c.id ?_
      intro j hj
      refine h j ?_
      rcases List.mem_cons.1 hj with rfl | hj
      · exact List.mem_cons_of_mem _ (child_id_mem hc)
      · exact List.mem_cons_of_mem _ (mem_of_child_mem hc hj)
    refine ⟨?_, ?_, fun base => ?_⟩
    · unfold subtreeIds
      rw [hci]
      exact flatMap_congr_mem (fun c hc => by rw [(hrec c hc).1])
    · unfold subtreeFits
      rw [hci]
      exact all_congr_mem (fun c hc => by rw [(hrec c hc).2.1])
    · unfold subtreeSane
      rw [hci]
      refine all_congr_mem (fun c hc => ?_)
      rw [(hrec c hc).2.2 c.path,
        h c.id (List.mem_cons_of_mem _ (child_id_mem hc))]

/-- Children of any closure member stay inside the descendant set. -/
theorem closed_subtree {f : Nat} {s : Store} {i j : Nat} {x : File}
    (hfit : subtreeFits f s i = true)
    (hj : j = i ∨ j ∈ subtreeIds f s i) (hx : x ∈ childrenOf s j) :
    x.id ∈ subtreeIds f s i := by
  rcases hj with rfl | hj
  · exact subtreeIds_le_of_fits (f + 1) f s j x.id hfit (child_id_mem hx)
  · exact subtreeIds_le_of_fits (f + 1) f s i x.id hfit
      (child_of_mem_subtree f s i j x hj hx)

/-! ## The path-rewriting function realised by the cascade -/

/-- Rewrites the path of every node whose id lies in `D` by a
first-occurrence replace of `p` with `q`; leaves everything else alone. -/
def pathRw (D : List Nat) (p q : String) (n : File) : File :=
  if n.id ∈ D then { n with path := replaceFirst p q n.path } else n

theorem pathRw_id (D : List Nat) (p q : String) (n : File) :
    (pathRw D p q n).id = n.id := by
  unfold pathRw; split <;> rfl

theorem pathRw_parentId (D : List Nat) (p q : String) (n : File) :
    (pathRw D p q n).parentId = n.parentId := by
  unfold pathRw; split <;> rfl

theorem pathRw_type (D : List Nat) (p q : String) (n : File) :
    (pathRw D p q n).type = n.type := by
  unfold pathRw; split <;> rfl

theorem pathRw_name (D : List Nat) (p q : String) (n : File) :
    (pathRw D p q n).name = n.name := by
  unfold pathRw; split <;> rfl

theorem pathRw_projectId (D : List Nat) (p q : String) (n : File) :
    (pathRw D p q n).projectId = n.projectId := by
  unfold pathRw; split <;> rfl

theorem pathRw_of_not_mem {D : List Nat} {p q : String} {n : File}
    (h : n.id ∉ D) : pathRw D p q n = n := if_neg h

theorem pathRw_of_mem {D : List Nat} {p q : String} {n : File}
    (h : n.id ∈ D) :
    pathRw D p q n = { n with path := replaceFirst p q n.path } := if_pos h

theorem pathRw_nil (p q : String) (n : File) : pathRw [] p q n = n :=
  pathRw_of_not_mem (by simp)

theorem map_eq_self_of_fix {α : Type} {l : List α} {f : α → α}
    (h : ∀ a ∈ l, f a = a) : l.map f = l := by
  induction l with
  | nil => rfl
  | cons a t ih =>
    simp only [List.map_cons]
    rw [h a (List.mem_cons_self a t),
      ih (fun x hx => h x (List.mem_cons_of_mem a hx))]

/-- Main cascade lemma: on a store with distinct ids whose subtree below
`root` is sane relative to the old base path `p`, with a `$`-free new base
`q` and `$`-free stored paths, a cascade none of whose saves was rejected
rewrites exactly the descendants\' paths -- replacing the leading occurrence
of `p` by `q` -- and leaves every other stored document unchanged. -/
theorem updateChildrenPaths_eq :
    ∀ (fuel : Nat) (s : Store) (root : Nat) (p q : String),
    distinctIds s → subtreeSane fuel s root p = true →
    dollarFree q = true → (∀ n ∈ s, dollarFree n.path = true) →
    (updateChildrenPaths fuel s root p q).2 = true →
    (updateChildrenPaths fuel s root p q).1 =
      s.map (pathRw (subtreeIds fuel s root) p q) := by
  intro fuel
  induction fuel with
  | zero =>
    intro s root p q _ _ _ _ _
    show s = s.map (pathRw (subtreeIds 0 s root) p q)
    rw [show subtreeIds 0 s root = [] from rfl,
      map_eq_self_of_fix (fun n _ => pathRw_nil p q n)]
  | succ f ih =>
    intro s root p q hd hsane hq hdfs hflag
    have hfitroot : subtreeFits (f + 1) s root = true :=
      subtreeSane_fits _ _ _ _ hsane
    have hNodupKids : (childrenOf s root).Pairwise (fun a b => a.id ≠ b.id) :=
      hd.sublist (List.filter_sublist s)
    rw [updateChildrenPaths_succ] at hflag ⊢
    have key : ∀ (todo done : List File), childrenOf s root = done ++ todo →
        (todo.foldl (cascadeStep f p q)
          (s.map (pathRw (done.flatMap (fun c' => c'.id :: subtreeIds f s c'.id)) p q),
           true)).2 = true →
        (todo.foldl (cascadeStep f p q)
          (s.map (pathRw (done.flatMap (fun c' => c'.id :: subtreeIds f s c'.id)) p q),
           true)).1 =
        s.map (pathRw ((done ++ todo).flatMap (fun c' => c'.id :: subtreeIds f s c'.id)) p q) := by
      intro todo
      induction todo with
      | nil => intro done _ _; simp
      | cons c todo' ihtodo =>
        intro done happ hsucc2
        have hc : c ∈ childrenOf s root := by
          rw [happ]
          exact List.mem_append_right done (List.mem_cons_self c todo')
        rcases subtreeSane_child hsane hc with ⟨hcpath, hcfolder, hcsane⟩
        have hcfit : subtreeFits f s c.id = true :=
          subtreeSane_fits f s c.id c.path hcsane
        have hcs : c ∈ s := childrenOf_subset hc
        have hsibs : ∀ c' ∈ done, c'.id ≠ c.id := by
          intro c' hc'
          have hpw := happ ▸ hNodupKids
          exact (List.pairwise_append.1 hpw).2.2 c' hc' c (List.mem_cons_self c todo')
        have hdonekids : ∀ c' ∈ done, c' ∈ childrenOf s root := by
          intro c' hc'
          rw [happ]
          exact List.mem_append_left _ hc'
        have hcD : c.id ∉ done.flatMap (fun c' => c'.id :: subtreeIds f s c'.id) := by
          intro hmem
          rcases List.mem_flatMap.1 hmem with ⟨c', hc', h2⟩
          rcases List.mem_cons.1 h2 with h2 | h2
          · exact hsibs c' hc' h2.symm
          · exact child_not_mem_sibling_subtree hd hfitroot hc (hdonekids c' hc') h2
        have hDT : ∀ x, x ∈ subtreeIds f s c.id →
            x ∉ done.flatMap (fun c' => c'.id :: subtreeIds f s c'.id) := by
          intro x hxT hmem
          rcases List.mem_flatMap.1 hmem with ⟨c', hc', h2⟩
          rcases List.mem_cons.1 h2 with rfl | h2
          · exact child_not_mem_sibling_subtree hd hfitroot (hdonekids c' hc') hc hxT
          · exact sibling_subtrees_disjoint f hd hfitroot hc (hdonekids c' hc')
              (fun hh => hsibs c' hc' hh.symm) hxT h2
        have hcT : c.id ∉ subtreeIds f s c.id := not_self_mem_subtree hcfit
        have hjs : jsReplace p q c.path = replaceFirst p q c.path :=
          jsReplace_no_dollar p q c.path hq
        have hnew : replaceFirst p q c.path = q ++ "/" ++ c.name := by
          rw [hcpath, str_append_assoc, replaceFirst_append_self, ← str_append_assoc]
        have hsave :
            save (s.map (pathRw (done.flatMap (fun c' => c'.id :: subtreeIds f s c'.id)) p q))
              { c with path := replaceFirst p q c.path } =
            s.map (pathRw (done.flatMap (fun c' => c'.id :: subtreeIds f s c'.id) ++ [c.id]) p q) := by
          unfold save
          rw [List.map_map]
          apply List.map_congr_left
          intro n hn
          simp only [Function.comp]
          by_cases hni : n.id = c.id
          · have hnc : n = c := eq_of_id_eq hd hn hcs hni
            subst hnc
            rw [if_pos (by rw [pathRw_id]),
              pathRw_of_mem (List.mem_append_right _ (List.mem_singleton.2 rfl))]
          · rw [if_neg (by rw [pathRw_id]; exact hni)]
            by_cases hnD : n.id ∈ done.flatMap (fun c' => c'.id :: subtreeIds f s c'.id)
            · rw [pathRw_of_mem hnD, pathRw_of_mem (List.mem_append_left _ hnD)]
            · rw [pathRw_of_not_mem hnD, pathRw_of_not_mem (by
                intro hmem
                rcases List.mem_append.1 hmem with hmem | hmem
                · exact hnD hmem
                · exact hni (List.mem_singleton.1 hmem))]
        rw [List.foldl_cons, cascadeStep_true, hjs] at hsucc2 ⊢
        by_cases hG : saveOk
            (s.map (pathRw (done.flatMap (fun c' => c'.id :: subtreeIds f s c'.id)) p q))
            { c with path := replaceFirst p q c.path } = true
        · rw [if_pos hG, hsave] at hsucc2 ⊢
          by_cases hft : c.type = FType.folder
          · rw [if_pos hft] at hsucc2 ⊢
            have hflat : (done ++ [c]).flatMap (fun c' => c'.id :: subtreeIds f s c'.id) =
                done.flatMap (fun c' => c'.id :: subtreeIds f s c'.id) ++
                  (c.id :: subtreeIds f s c.id) := by
              rw [List.flatMap_append]
              simp
            have hkids : ∀ j, j ∈ c.id :: subtreeIds f s c.id →
                childrenOf (s.map (pathRw
                  (done.flatMap (fun c' => c'.id :: subtreeIds f s c'.id) ++ [c.id]) p q)) j =
                childrenOf s j := by
              intro j hj
              rw [childrenOf_map (fun n => pathRw_parentId _ _ _ n)]
              have hfix : ∀ x ∈ childrenOf s j,
                  pathRw (done.flatMap (fun c' => c'.id :: subtreeIds f s c'.id) ++ [c.id]) p q x
                    = x := by
                intro x hx
                apply pathRw_of_not_mem
                have hxT : x.id ∈ subtreeIds f s c.id := by
                  refine closed_subtree hcfit ?_ hx
                  rcases List.mem_cons.1 hj with rfl | hj'
                  · exact Or.inl rfl
                  · exact Or.inr hj'
                intro hmem
                rcases List.mem_append.1 hmem with hmem | hmem
                · exact hDT x.id hxT hmem
                · exact hcT (List.mem_singleton.1 hmem ▸ hxT)
              rw [map_eq_self_of_fix hfix]
            have hdist1 : distinctIds
                (s.map (pathRw (done.flatMap (fun c' => c'.id :: subtreeIds f s c'.id) ++ [c.id]) p q)) :=
              distinctIds_map (fun n => pathRw_id _ _ _ n) hd
            obtain ⟨hTeq, _, hSaneEq⟩ :=
              subtree_transfer f s
                (s.map (pathRw (done.flatMap (fun c' => c'.id :: subtreeIds f s c'.id) ++ [c.id]) p q))
                c.id hkids
            have hsane1 : subtreeSane f
                (s.map (pathRw (done.flatMap (fun c' => c'.id :: subtreeIds f s c'.id) ++ [c.id]) p q))
                c.id c.path = true := by
              rw [hSaneEq c.path]; exact hcsane
            have hdfq2 : dollarFree (replaceFirst p q c.path) = true :=
              replaceFirst_dollarFree p q c.path hq (hdfs c hcs)
            have hdfsC : ∀ n ∈ s.map (pathRw
                (done.flatMap (fun c' => c'.id :: subtreeIds f s c'.id) ++ [c.id]) p q),
                dollarFree n.path = true := by
              intro n hn
              rcases List.mem_map.1 hn with ⟨x, hx, rfl⟩
              by_cases hxD : x.id ∈ done.flatMap (fun c' => c'.id :: subtreeIds f s c'.id) ++ [c.id]
              · rw [pathRw_of_mem hxD]
                exact replaceFirst_dollarFree p q x.path hq (hdfs x hx)
              · rw [pathRw_of_not_mem hxD]
                exact hdfs x hx
            by_cases hr2 : (updateChildrenPaths f
                (s.map (pathRw (done.flatMap (fun c' => c'.id :: subtreeIds f s c'.id) ++ [c.id]) p q))
                c.id c.path (replaceFirst p q c.path)).2 = true
            · have hstep1 : (updateChildrenPaths f
                  (s.map (pathRw (done.flatMap (fun c' => c'.id :: subtreeIds f s c'.id) ++ [c.id]) p q))
                  c.id c.path (replaceFirst p q c.path)).1 =
                  s.map (pathRw ((done ++ [c]).flatMap (fun c' => c'.id :: subtreeIds f s c'.id)) p q) := by
                rw [hflat]
                rw [ih _ c.id c.path (replaceFirst p q c.path) hdist1 hsane1 hdfq2 hdfsC hr2,
                  hTeq, List.map_map]
                apply List.map_congr_left
                intro n hn
                simp only [Function.comp]
                by_cases hnT : n.id ∈ subtreeIds f s c.id
                · have hnD : n.id ∉ done.flatMap (fun c' => c'.id :: subtreeIds f s c'.id) :=
                    hDT n.id hnT
                  have hnc : n.id ≠ c.id := fun hh => hcT (hh ▸ hnT)
                  have hinner : pathRw
                      (done.flatMap (fun c' => c'.id :: subtreeIds f s c'.id) ++ [c.id]) p q n = n :=
                    pathRw_of_not_mem (by
                      intro hmem
                      rcases List.mem_append.1 hmem with hmem | hmem
                      · exact hnD hmem
                      · exact hnc (List.mem_singleton.1 hmem))
                  rw [hinner, pathRw_of_mem hnT,
                    pathRw_of_mem (List.mem_append_right _ (List.mem_cons_of_mem _ hnT))]
                  have hpq : replaceFirst c.path (replaceFirst p q c.path) n.path =
                      replaceFirst p q n.path := by
                    rcases path_of_mem_subtree f s c.id c.path n hd hcsane hn hnT with ⟨t, ht⟩
                    have h1 : n.path = c.path ++ ("/" ++ t) := by
                      rw [ht, str_append_assoc]
                    rw [h1, replaceFirst_append_self, hnew, hcpath]
                    simp only [str_append_assoc]
                    rw [replaceFirst_append_self]
                  rw [hpq]
                · by_cases hni : n.id = c.id
                  · have hinner : pathRw
                        (done.flatMap (fun c' => c'.id :: subtreeIds f s c'.id) ++ [c.id]) p q n =
                        { n with path := replaceFirst p q n.path } :=
                      pathRw_of_mem (List.mem_append_right _ (List.mem_singleton.2 hni))
                    rw [hinner,
                      pathRw_of_not_mem (show ({ n with path := replaceFirst p q n.path } : File).id
                          ∉ subtreeIds f s c.id from by
                        rw [show ({ n with path := replaceFirst p q n.path } : File).id = n.id from rfl,
                          hni]
                        exact hcT),
                      pathRw_of_mem (List.mem_append_right _ (hni ▸ List.mem_cons_self _ _))]
                  · by_cases hnD : n.id ∈ done.flatMap (fun c' => c'.id :: subtreeIds f s c'.id)
                    · have hinner : pathRw
                          (done.flatMap (fun c' => c'.id :: subtreeIds f s c'.id) ++ [c.id]) p q n =
                          { n with path := replaceFirst p q n.path } :=
                        pathRw_of_mem (List.mem_append_left _ hnD)
                      rw [hinner,
                        pathRw_of_not_mem (show ({ n with path := replaceFirst p q n.path } : File).id
                            ∉ subtreeIds f s c.id from by
                          rw [show ({ n with path := replaceFirst p q n.path } : File).id = n.id from rfl]
                          exact hnT),
                        pathRw_of_mem (List.mem_append_left _ hnD)]
                    · have hinner : pathRw
                          (done.flatMap (fun c' => c'.id :: subtreeIds f s c'.id) ++ [c.id]) p q n = n :=
                        pathRw_of_not_mem (by
                          intro hmem
                          rcases List.mem_append.1 hmem with hmem | hmem
                          · exact hnD hmem
                          · exact hni (List.mem_singleton.1 hmem))
                      rw [hinner, pathRw_of_not_mem hnT,
                        pathRw_of_not_mem (by
                          intro hmem
                          rcases List.mem_append.1 hmem with hmem | hmem
                          · exact hnD hmem
                          · rcases List.mem_cons.1 hmem with hmem | hmem
                            · exact hni hmem
                            · exact hnT hmem)]
              have hpairval : updateChildrenPaths f
                  (s.map (pathRw (done.flatMap (fun c' => c'.id :: subtreeIds f s c'.id) ++ [c.id]) p q))
                  c.id c.path (replaceFirst p q c.path) =
                  (s.map (pathRw ((done ++ [c]).flatMap (fun c' => c'.id :: subtreeIds f s c'.id)) p q),
                   true) :=
                Prod.ext hstep1 hr2
              rw [hpairval] at hsucc2 ⊢
              rw [ihtodo (done ++ [c]) (by rw [happ, List.append_assoc]; rfl) hsucc2,
                List.append_assoc]
              rfl
            · have hfalse : (updateChildrenPaths f
                  (s.map (pathRw (done.flatMap (fun c' => c'.id :: subtreeIds f s c'.id) ++ [c.id]) p q))
                  c.id c.path (replaceFirst p q c.path)).2 = false := by
                revert hr2
                cases (updateChildrenPaths f
                  (s.map (pathRw (done.flatMap (fun c' => c'.id :: subtreeIds f s c'.id) ++ [c.id]) p q))
                  c.id c.path (replaceFirst p q c.path)).2 <;> simp
              have hpairf : updateChildrenPaths f
                  (s.map (pathRw (done.flatMap (fun c' => c'.id :: subtreeIds f s c'.id) ++ [c.id]) p q))
                  c.id c.path (replaceFirst p q c.path) =
                  ((updateChildrenPaths f
                    (s.map (pathRw (done.flatMap (fun c' => c'.id :: subtreeIds f s c'.id) ++ [c.id]) p q))
                    c.id c.path (replaceFirst p q c.path)).1, false) :=
                Prod.ext rfl hfalse
              rw [hpairf, cascade_foldl_frozen] at hsucc2
              simp at hsucc2
          · rw [if_neg hft] at hsucc2 ⊢
            have hkid0 : childrenOf s c.id = [] := by
              rcases hcfolder with hh | hh
              · exact absurd hh hft
              · exact hh
            have hsub0 : subtreeIds f s c.id = [] := subtreeIds_of_no_children hkid0
            have hflat2 : (done ++ [c]).flatMap (fun c' => c'.id :: subtreeIds f s c'.id) =
                done.flatMap (fun c' => c'.id :: subtreeIds f s c'.id) ++ [c.id] := by
              rw [List.flatMap_append]
              simp [hsub0]
            rw [← hflat2] at hsucc2 ⊢
            rw [ihtodo (done ++ [c]) (by rw [happ, List.append_assoc]; rfl) hsucc2,
              List.append_assoc]
            rfl
        · rw [if_neg hG] at hsucc2 ⊢
          rw [cascade_foldl_frozen] at hsucc2
          simp at hsucc2
    have happly := key (childrenOf s root) [] rfl
    rw [show (([] : List File).flatMap (fun c' => c'.id :: subtreeIds f s c'.id)) = [] from rfl,
      map_eq_self_of_fix (fun n _ => pathRw_nil p q n),
      List.nil_append] at happly
    exact happly hflag

/-! ## Inversion lemmas for the updateFile pipeline -/

theorem nameStep_ok {s : Store} {f0 f1 : File} {nm? : Option String}
    {pth : String} (h : nameStep s f0 nm? = Except.ok (f1, pth)) :
    f1.id = f0.id ∧ f1.parentId = f0.parentId ∧ f1.type = f0.type ∧
    f1.projectId = f0.projectId ∧ f1.path = pth := by
  unfold nameStep at h
  simp only [] at h
  split at h <;> (try split at h) <;> (try split at h) <;> (try split at h) <;>
    (try split at h) <;> (try split at h)
  all_goals (try split_ifs at h)
  all_goals
    first
    | (simp only [Except.ok.injEq, Prod.mk.injEq] at h
       rcases h with ⟨rfl, rfl⟩
       exact ⟨rfl, rfl, rfl, rfl, rfl⟩)
    | simp at h

theorem contentStep_fields (f1 : File) (c? : Option String) :
    (contentStep f1 c?).id = f1.id ∧ (contentStep f1 c?).parentId = f1.parentId ∧
    (contentStep f1 c?).type = f1.type ∧ (contentStep f1 c?).projectId = f1.projectId ∧
    (contentStep f1 c?).name = f1.name ∧ (contentStep f1 c?).path = f1.path := by
  cases c? with
  | none => exact ⟨rfl, rfl, rfl, rfl, rfl, rfl⟩
  | some c =>
    by_cases hh : f1.type = FType.file <;> simp [contentStep, hh]

theorem parentStep_ok {s : Store} {f2 f3 : File} {cur : String}
    {p? : Option (Option Nat)} {pth : String}
    (hcur : f2.path = cur) (h : parentStep s f2 cur p? = Except.ok (f3, pth)) :
    f3.id = f2.id ∧ f3.type = f2.type ∧ f3.name = f2.name ∧
    f3.projectId = f2.projectId ∧ f3.path = pth ∧
    (f3.parentId = f2.parentId ∨ ∃ po, p? = some po ∧ f3.parentId = po) := by
  unfold parentStep at h
  simp only [] at h
  split at h <;> (try split at h) <;> (try split at h) <;> (try split at h) <;>
    (try split at h) <;> (try split at h)
  all_goals (try split_ifs at h)
  all_goals
    first
    | (simp only [Except.ok.injEq, Prod.mk.injEq] at h
       rcases h with ⟨rfl, rfl⟩
       first
       | exact ⟨rfl, rfl, rfl, rfl, hcur, Or.inl rfl⟩
       | exact ⟨rfl, rfl, rfl, rfl, rfl, Or.inr ⟨_, rfl, rfl⟩⟩
       | exact ⟨rfl, rfl, rfl, rfl, rfl, Or.inr ⟨none, rfl, rfl⟩⟩)
    | simp at h

/-- The path and name produced by the name branch are `$`-free whenever the
stored paths, the stored name, and the requested name are. -/
theorem nameStep_df {s : Store} {f0 f1 : File} {nm? : Option String} {pth : String}
    (h : nameStep s f0 nm? = Except.ok (f1, pth))
    (hdfs : ∀ n ∈ s, dollarFree n.path = true)
    (hnm : ∀ nm, nm? = some nm → dollarFree nm = true)
    (hf0 : dollarFree f0.path = true) (hf0n : dollarFree f0.name = true) :
    dollarFree pth = true ∧ dollarFree f1.name = true := by
  cases nm? with
  | none =>
    simp only [nameStep, Except.ok.injEq, Prod.mk.injEq] at h
    rcases h with ⟨rfl, rfl⟩
    exact ⟨hf0, hf0n⟩
  | some nm =>
    simp only [nameStep] at h
    by_cases hcond : nm ≠ "" ∧ nm ≠ f0.name
    · rw [if_pos hcond] at h
      cases hpar : f0.parentId with
      | none =>
        rw [hpar] at h
        simp only [] at h
        by_cases hc : conflictAt s f0.projectId nm f0.id = true
        · rw [if_pos hc] at h
          simp at h
        · rw [if_neg hc] at h
          simp only [Except.ok.injEq, Prod.mk.injEq] at h
          rcases h with ⟨rfl, rfl⟩
          exact ⟨hnm nm rfl, hnm nm rfl⟩
      | some pid =>
        rw [hpar] at h
        simp only [] at h
        cases hfind : findById s pid with
        | none =>
          rw [hfind] at h
          simp at h
        | some par =>
          rw [hfind] at h
          simp only [] at h
          by_cases hc : conflictAt s f0.projectId
              (if par.path = "" then nm else par.path ++ "/" ++ nm) f0.id = true
          · rw [if_pos hc] at h
            simp at h
          · rw [if_neg hc] at h
            simp only [Except.ok.injEq, Prod.mk.injEq] at h
            rcases h with ⟨rfl, rfl⟩
            have hpardf : dollarFree par.path = true :=
              hdfs par (findById_mem hfind).1
            refine ⟨?_, hnm nm rfl⟩
            by_cases hpp : par.path = ""
            · rw [if_pos hpp]
              exact hnm nm rfl
            · rw [if_neg hpp, dollarFree_append, dollarFree_append, hpardf,
                hnm nm rfl]
              decide
    · rw [if_neg hcond] at h
      simp only [Except.ok.injEq, Prod.mk.injEq] at h
      rcases h with ⟨rfl, rfl⟩
      exact ⟨hf0, hf0n⟩

/-- The path produced by the parent branch is `$`-free whenever the stored
paths, the document\'s name and the current path are. -/
theorem parentStep_df {s : Store} {f2 f3 : File} {cur : String}
    {p? : Option (Option Nat)} {pth : String}
    (h : parentStep s f2 cur p? = Except.ok (f3, pth))
    (hdfs : ∀ n ∈ s, dollarFree n.path = true)
    (hf2n : dollarFree f2.name = true) (hcur : dollarFree cur = true) :
    dollarFree pth = true := by
  cases p? with
  | none =>
    simp only [parentStep, Except.ok.injEq, Prod.mk.injEq] at h
    rcases h with ⟨rfl, rfl⟩
    exact hcur
  | some pnew =>
    simp only [parentStep] at h
    split at h
    · cases pnew with
      | some pid =>
        simp only [] at h
        cases hfind : findById s pid with
        | none =>
          rw [hfind] at h
          simp at h
        | some par =>
          rw [hfind] at h
          simp only [] at h
          by_cases ht : par.type = FType.folder
          · rw [if_pos ht] at h
            by_cases hc : conflictAt s f2.projectId (par.path ++ "/" ++ f2.name)
                f2.id = true
            · rw [if_pos hc] at h
              simp at h
            · rw [if_neg hc] at h
              simp only [Except.ok.injEq, Prod.mk.injEq] at h
              rcases h with ⟨rfl, rfl⟩
              have hpardf : dollarFree par.path = true :=
                hdfs par (findById_mem hfind).1
              rw [dollarFree_append, dollarFree_append, hpardf, hf2n]
              decide
          · rw [if_neg ht] at h
            simp at h
      | none =>
        simp only [] at h
        by_cases hc : conflictAt s f2.projectId f2.name f2.id = true
        · rw [if_pos hc] at h
          simp at h
        · rw [if_neg hc] at h
          simp only [Except.ok.injEq, Prod.mk.injEq] at h
          rcases h with ⟨rfl, rfl⟩
          exact hf2n
    · simp only [Except.ok.injEq, Prod.mk.injEq] at h
      rcases h with ⟨rfl, rfl⟩
      exact hcur

/-! ## Effect of a save on children queries -/

theorem childrenOf_save {s : Store} {m : File} {j : Nat}
    (hnotold : ∀ x ∈ s, x.id = m.id → x.parentId ≠ some j)
    (hnotnew : m.parentId ≠ some j) :
    childrenOf (save s m) j = childrenOf s j := by
  unfold save childrenOf
  induction s with
  | nil => rfl
  | cons a t ih =>
    have ih' := ih (fun x hx => hnotold x (List.mem_cons_of_mem a hx))
    by_cases ha : a.id = m.id
    · have h2 : a.parentId ≠ some j := hnotold a (List.mem_cons_self a t) ha
      simp [ha, h2, hnotnew, ih']
    · by_cases hpj : a.parentId = some j
      · simp [ha, hpj, ih']
      · simp [ha, hpj, ih']

theorem distinctIds_save {s : Store} {m : File} (hd : distinctIds s) :
    distinctIds (save s m) :=
  distinctIds_map (fun n => by by_cases h : n.id = m.id <;> simp [h]) hd

theorem mem_save_of_id {s : Store} {f m : File} (hf : f ∈ s) (hid : f.id = m.id) :
    m ∈ save s m := by
  unfold save
  exact List.mem_map.2 ⟨f, hf, by simp [hid]⟩

theorem mem_save_of_ne {s : Store} {n m : File} (hn : n ∈ s) (hne : n.id ≠ m.id) :
    n ∈ save s m := by
  unfold save
  exact List.mem_map.2 ⟨n, hn, by simp [hne]⟩

/-! ## The recursive delete removes exactly the subtree -/

theorem childrenOf_filter (s : Store) (g : File → Bool) (j : Nat) :
    childrenOf (s.filter g) j = (childrenOf s j).filter g := by
  unfold childrenOf
  induction s with
  | nil => rfl
  | cons a t ih =>
    by_cases hg : g a = true <;> by_cases hp : a.parentId = some j <;>
      simp [hg, hp, ih]

theorem filter_keep_all {α : Type} {l : List α} {p : α → Bool}
    (h : ∀ a ∈ l, p a = true) : l.filter p = l := by
  induction l with
  | nil => rfl
  | cons a t ih =>
    rw [List.filter_cons, if_pos (h a (List.mem_cons_self a t)),
      ih (fun x hx => h x (List.mem_cons_of_mem a hx))]

/-- Main delete lemma: on a store with distinct ids whose subtree below the
deleted document is sane, `deleteRecursively` removes exactly the document
and its transitive descendants, preserving everything else in order. -/
theorem deleteRecursively_eq :
    ∀ (fuel : Nat) (s : Store) (f : File),
    distinctIds s → subtreeSane fuel s f.id f.path = true →
    (f.type = FType.folder ∨ childrenOf s f.id = []) →
    deleteRecursively (fuel + 1) s f =
      s.filter (fun n => ¬(n.id = f.id ∨ n.id ∈ subtreeIds fuel s f.id)) := by
  intro fuel
  induction fuel with
  | zero =>
    intro s f hd hsane hroot
    have hkid0 : childrenOf s f.id = [] := by
      rw [← List.isEmpty_iff]
      exact hsane
    show (if f.type = FType.folder then
        (childrenOf s f.id).foldl (fun acc child => deleteRecursively 0 acc child) s
      else s).filter (fun n => ¬ n.id = f.id) = _
    rw [hkid0]
    have hbase : (if f.type = FType.folder then
        ([] : List File).foldl (fun acc child => deleteRecursively 0 acc child) s
      else s) = s := by
      split <;> rfl
    rw [hbase]
    refine List.filter_congr ?_
    intro n _
    refine decide_eq_decide.2 ?_
    simp [subtreeIds]
  | succ k ih =>
    intro s f hd hsane hroot
    have hfit : subtreeFits (k + 1) s f.id = true := subtreeSane_fits _ _ _ _ hsane
    have hNodupKids : (childrenOf s f.id).Pairwise (fun a b => a.id ≠ b.id) :=
      hd.sublist (List.filter_sublist s)
    rcases hroot with hroot | hroot
    case inr =>
      show (if f.type = FType.folder then
          (childrenOf s f.id).foldl (fun acc child => deleteRecursively (k + 1) acc child) s
        else s).filter (fun n => ¬ n.id = f.id) = _
      rw [hroot]
      have hbase : (if f.type = FType.folder then
          ([] : List File).foldl (fun acc child => deleteRecursively (k + 1) acc child) s
        else s) = s := by
        split <;> rfl
      rw [hbase]
      refine List.filter_congr ?_
      intro n _
      refine decide_eq_decide.2 ?_
      have hsub : subtreeIds (k + 1) s f.id = [] := subtreeIds_of_no_children hroot
      simp [hsub]
    case inl =>
      have key : ∀ (todo done : List File), childrenOf s f.id = done ++ todo →
          todo.foldl (fun acc child => deleteRecursively (k + 1) acc child)
            (s.filter (fun n =>
              ¬ n.id ∈ done.flatMap (fun c => c.id :: subtreeIds k s c.id))) =
          s.filter (fun n =>
            ¬ n.id ∈ (done ++ todo).flatMap (fun c => c.id :: subtreeIds k s c.id)) := by
        intro todo
        induction todo with
        | nil => intro done _; simp
        | cons c todo2 ihtodo =>
          intro done happ
          have hc : c ∈ childrenOf s f.id := by
            rw [happ]
            exact List.mem_append_right done (List.mem_cons_self c todo2)
          rcases subtreeSane_child hsane hc with ⟨hcpath, hcfolder, hcsane⟩
          have hcfit : subtreeFits k s c.id = true :=
            subtreeSane_fits k s c.id c.path hcsane
          have hsibs : ∀ c2 ∈ done, c2.id ≠ c.id := by
            intro c2 hc2
            have hpw := happ ▸ hNodupKids
            exact (List.pairwise_append.1 hpw).2.2 c2 hc2 c (List.mem_cons_self c todo2)
          have hdonekids : ∀ c2 ∈ done, c2 ∈ childrenOf s f.id := by
            intro c2 hc2
            rw [happ]
            exact List.mem_append_left _ hc2
          have hDT : ∀ x, (x = c.id ∨ x ∈ subtreeIds k s c.id) →
              x ∉ done.flatMap (fun c2 => c2.id :: subtreeIds k s c2.id) := by
            intro x hxT hmem
            rcases List.mem_flatMap.1 hmem with ⟨c2, hc2, h2⟩
            rcases hxT with rfl | hxT
            · rcases List.mem_cons.1 h2 with h2 | h2
              · exact hsibs c2 hc2 h2.symm
              · exact child_not_mem_sibling_subtree hd hfit hc (hdonekids c2 hc2) h2
            · rcases List.mem_cons.1 h2 with rfl | h2
              · exact child_not_mem_sibling_subtree hd hfit (hdonekids c2 hc2) hc hxT
              · exact sibling_subtrees_disjoint k hd hfit hc (hdonekids c2 hc2)
                  (fun hh => hsibs c2 hc2 hh.symm) hxT h2
          have hkeep : ∀ j, j ∈ c.id :: subtreeIds k s c.id →
              childrenOf (s.filter (fun n =>
                ¬ n.id ∈ done.flatMap (fun c2 => c2.id :: subtreeIds k s c2.id))) j =
              childrenOf s j := by
            intro j hj
            rw [childrenOf_filter]
            refine filter_keep_all ?_
            intro x hx
            have hxT : x.id ∈ subtreeIds k s c.id := by
              refine closed_subtree hcfit ?_ hx
              rcases List.mem_cons.1 hj with rfl | hj2
              · exact Or.inl rfl
              · exact Or.inr hj2
            simp only [decide_eq_true_eq]
            exact hDT x.id (Or.inr hxT)
          have hdistf : distinctIds (s.filter (fun n =>
              ¬ n.id ∈ done.flatMap (fun c2 => c2.id :: subtreeIds k s c2.id))) :=
            distinctIds_filter _ hd
          obtain ⟨hTeq, _, hSaneEq⟩ :=
            subtree_transfer k s
              (s.filter (fun n =>
                ¬ n.id ∈ done.flatMap (fun c2 => c2.id :: subtreeIds k s c2.id)))
              c.id hkeep
          have hsanef : subtreeSane k (s.filter (fun n =>
              ¬ n.id ∈ done.flatMap (fun c2 => c2.id :: subtreeIds k s c2.id)))
              c.id c.path = true := by
            rw [hSaneEq c.path]
            exact hcsane
          have hrootc : c.type = FType.folder ∨
              childrenOf (s.filter (fun n =>
                ¬ n.id ∈ done.flatMap (fun c2 => c2.id :: subtreeIds k s c2.id)))
                c.id = [] := by
            rcases hcfolder with hh | hh
            · exact Or.inl hh
            · refine Or.inr ?_
              rw [hkeep c.id (List.mem_cons_self _ _), hh]
          have hstep := ih (s.filter (fun n =>
              ¬ n.id ∈ done.flatMap (fun c2 => c2.id :: subtreeIds k s c2.id)))
            c hdistf hsanef hrootc
          rw [hTeq] at hstep
          have hstep2 : deleteRecursively (k + 1)
              (s.filter (fun n =>
                ¬ n.id ∈ done.flatMap (fun c2 => c2.id :: subtreeIds k s c2.id))) c =
              s.filter (fun n =>
                ¬ n.id ∈ (done ++ [c]).flatMap (fun c2 => c2.id :: subtreeIds k s c2.id)) := by
            rw [hstep, List.filter_filter]
            refine List.filter_congr ?_
            intro n _
            refine Bool.eq_iff_iff.mpr ?_
            simp only [Bool.and_eq_true, decide_eq_true_eq, List.flatMap_append,
              List.flatMap_cons, List.flatMap_nil, List.append_nil, List.mem_append,
              List.mem_cons]
            tauto
          show todo2.foldl (fun acc child => deleteRecursively (k + 1) acc child)
            (deleteRecursively (k + 1)
              (s.filter (fun n =>
                ¬ n.id ∈ done.flatMap (fun c2 => c2.id :: subtreeIds k s c2.id))) c) = _
          rw [hstep2,
            ihtodo (done ++ [c]) (by rw [happ, List.append_assoc]; rfl),
            List.append_assoc]
          rfl
      have happly := key (childrenOf s f.id) [] rfl
      have h0 : s.filter (fun n => ¬ n.id ∈ ([] : List File).flatMap
          (fun c => c.id :: subtreeIds k s c.id)) = s := by
        refine filter_keep_all ?_
        intro x _
        simp
      rw [h0, List.nil_append] at happly
      show (if f.type = FType.folder then
          (childrenOf s f.id).foldl (fun acc child => deleteRecursively (k + 1) acc child) s
        else s).filter (fun n => ¬ n.id = f.id) = _
      rw [if_pos hroot, happly, List.filter_filter]
      refine List.filter_congr ?_
      intro n _
      refine Bool.eq_iff_iff.mpr ?_
      simp only [Bool.and_eq_true, decide_eq_true_eq]
      show _ ↔ ¬(n.id = f.id ∨ n.id ∈
        (childrenOf s f.id).flatMap (fun c => c.id :: subtreeIds k s c.id))
      tauto

/-! ## Tree lemmas for delete completeness and ordering -/

theorem mem_sortNodes {l : List File} {a : File} : a ∈ sortNodes l ↔ a ∈ l :=
  (List.perm_insertionSort _ l).mem_iff

/-- Every record appearing anywhere in a built tree is stored. -/
theorem flattenT_sub : ∀ (fuel : Nat) (s : Store) (pid : Nat) (par : Option Nat)
    (t : FTree), t ∈ buildFileTree fuel s pid par → ∀ g ∈ flattenT t, g ∈ s := by
  intro fuel
  induction fuel with
  | zero =>
    intro s pid par t ht
    simp [buildFileTree] at ht
  | succ k ih =>
    intro s pid par t ht g hg
    simp only [buildFileTree] at ht
    rcases List.mem_map.1 ht with ⟨f, hf, rfl⟩
    have hfs : f ∈ s := (List.mem_filter.1 (mem_sortNodes.1 hf)).1
    simp only [flattenT] at hg
    rcases List.mem_cons.1 hg with rfl | hg
    · exact hfs
    · rcases List.mem_flatMap.1 hg with ⟨⟨x0, hx0⟩, hx, hgx⟩
      by_cases hft : f.type = FType.folder
      · rw [if_pos hft] at hx0
        exact ih s pid (some f.id) x0 hx0 g hgx
      · rw [if_neg hft] at hx0
        cases hx0

theorem typeRank_inj : ∀ {x y : FType}, typeRank x = typeRank y → x = y := by
  intro x y h
  cases x <;> cases y <;> first | rfl | (exact absurd h (by decide))

instance : IsTotal File (fun a b => fileLe a b = true) := by
  constructor
  intro a b
  simp only [fileLe, Bool.or_eq_true, Bool.and_eq_true, decide_eq_true_eq, beq_iff_eq]
  rcases Nat.lt_trichotomy (typeRank a.type) (typeRank b.type) with h | h | h
  · exact Or.inl (Or.inl h)
  · have ht : a.type = b.type := typeRank_inj h
    rcases le_total a.name b.name with hn | hn
    · exact Or.inl (Or.inr ⟨ht, hn⟩)
    · exact Or.inr (Or.inr ⟨ht.symm, hn⟩)
  · exact Or.inr (Or.inl h)

instance : IsTrans File (fun a b => fileLe a b = true) := by
  constructor
  intro a b c hab hbc
  simp only [fileLe, Bool.or_eq_true, Bool.and_eq_true, decide_eq_true_eq,
    beq_iff_eq] at hab hbc ⊢
  rcases hab with h1 | ⟨h1, h1n⟩ <;> rcases hbc with h2 | ⟨h2, h2n⟩
  · exact Or.inl (h1.trans h2)
  · left
    rw [← h2]
    exact h1
  · left
    rw [h1]
    exact h2
  · exact Or.inr ⟨h1.trans h2, le_trans h1n h2n⟩

/-- Each level produced by `buildFileTree` obeys `{ type: -1, name: 1 }`. -/
theorem buildFileTree_level_sorted (fuel : Nat) (s : Store) (pid : Nat)
    (par : Option Nat) : levelOrdered (buildFileTree fuel s pid par) := by
  cases fuel with
  | zero => simp [buildFileTree, levelOrdered]
  | succ k =>
    simp only [buildFileTree, levelOrdered]
    rw [List.pairwise_map]
    exact List.sorted_insertionSort (fun a b : File => fileLe a b = true)
      (s.filter (fun n => n.projectId == pid && n.parentId == par))

theorem forestOrdered_iff : ∀ (l : List FTree),
    forestOrdered l ↔ ∀ t ∈ l, treeOrdered t := by
  intro l
  induction l with
  | nil => simp [forestOrdered]
  | cons t ts ih => simp [forestOrdered, ih, List.forall_mem_cons]

/-- Every level of every subtree produced by `buildFileTree` is ordered. -/
theorem buildFileTree_ordered : ∀ (fuel : Nat) (s : Store) (pid : Nat)
    (par : Option Nat), forestOrdered (buildFileTree fuel s pid par) := by
  intro fuel
  induction fuel with
  | zero =>
    intro s pid par
    simp [buildFileTree, forestOrdered]
  | succ k ih =>
    intro s pid par
    rw [forestOrdered_iff]
    intro t ht
    simp only [buildFileTree] at ht
    rcases List.mem_map.1 ht with ⟨f, hf, rfl⟩
    rw [treeOrdered]
    constructor
    · by_cases hft : f.type = FType.folder
      · rw [if_pos hft]
        exact buildFileTree_level_sorted k s pid (some f.id)
      · rw [if_neg hft]
        exact List.Pairwise.nil
    · by_cases hft : f.type = FType.folder
      · rw [if_pos hft]
        exact ih s pid (some f.id)
      · rw [if_neg hft]
        rw [forestOrdered]
        trivial

/-- A project with no stored nodes yields the empty forest. -/
theorem buildFileTree_empty_project : ∀ (fuel : Nat) (s : Store) (pid : Nat)
    (par : Option Nat), (∀ n ∈ s, n.projectId ≠ pid) →
    buildFileTree fuel s pid par = [] := by
  intro fuel s pid par h
  cases fuel with
  | zero => rfl
  | succ k =>
    simp only [buildFileTree]
    have hnil : s.filter (fun n => n.projectId == pid && n.parentId == par) = [] := by
      refine List.filter_eq_nil.2 ?_
      intro a ha
      simp only [Bool.and_eq_true, beq_iff_eq, not_and]
      intro hpid
      exact absurd hpid (h a ha)
    rw [hnil]
    rfl

/-! ## Concrete scenario states

Each store below is reachable from the empty store through the public
endpoints, so the theorems about them speak about reachable states. -/

/-- Two root files `f1`, `f2` in project 1. -/
def twoFiles : Store :=
  (createEndpoint
    (createEndpoint [] [1] ⟨"f1", 1, none, .file, ""⟩ 1).1
    [1] ⟨"f2", 1, none, .file, ""⟩ 2).1

/-- `twoFiles` after moving `f2` under `f1` (the move route checks neither
the parent's type nor cycles). -/
def nestedFiles : Store := (moveEndpoint twoFiles 2 (some 1) none).1

/-- `nestedFiles` after moving `f1` under `f2`: a `parentId` cycle. -/
def cycleStore : Store := (moveEndpoint nestedFiles 1 (some 2) none).1

/-- A single root file `f` in project 1. -/
def oneFile : Store :=
  (createEndpoint [] [1] ⟨"f", 1, none, .file, ""⟩ 1).1

/-- A root folder `d` in project 2 (alongside an empty project 1). -/
def crossStore : Store :=
  (createEndpoint [] [1, 2] ⟨"d", 2, none, .folder, ""⟩ 1).1

/-- Folder `a` with files `a/x` and `a/y` in project 1. -/
def folderXY : Store :=
  (createEndpoint
    (createEndpoint
      (createEndpoint [] [1] ⟨"a", 1, none, .folder, ""⟩ 1).1
      [1] ⟨"x", 1, some 1, .file, ""⟩ 2).1
    [1] ⟨"y", 1, some 1, .file, ""⟩ 3).1

/-- The generic folder-with-two-files store: folder `na` at root with child
files `n1`, `n2`; the path invariant holds by construction. -/
def famStore (na n1 n2 : String) : Store :=
  [{ id := 1, projectId := 1, parentId := none, type := FType.folder,
     name := na, path := na, content := "" },
   { id := 2, projectId := 1, parentId := some 1, type := FType.file,
     name := n1, path := na ++ "/" ++ n1, content := "" },
   { id := 3, projectId := 1, parentId := some 1, type := FType.file,
     name := n2, path := na ++ "/" ++ n2, content := "" }]

/-! ## C1 -/

/-- C1: the claim that a rename/move request whose requested parent is the
node itself or one of its descendants fails with `InvalidCycle` and changes
nothing is false on the code: in the reachable state `nestedFiles`, node 2 is
a descendant of node 1, yet moving node 1 under node 2 succeeds, mutates the
store, and leaves node 1 a transitive ancestor of itself. -/
theorem c1_cycle_reachable_code_bug :
    (moveEndpoint twoFiles 2 (some 1) none).2 = none ∧
    2 ∈ subtreeIds nestedFiles.length nestedFiles 1 ∧
    moveEndpoint nestedFiles 1 (some 2) none = (cycleStore, none) ∧
    cycleStore ≠ nestedFiles ∧
    1 ∈ subtreeIds cycleStore.length cycleStore 1 := by
  decide

/-! ## C2 -/

/-- C2: the path-consistency invariant does not hold in every reachable
state: moving the root file of `oneFile` to the nonexistent parent 99
succeeds and yields a store in which the node's `parentId` is the dangling
id 99 while no parent exists, so `pathOk` fails. -/
theorem c2_path_consistency_violated :
    pathOk oneFile = true ∧
    (moveEndpoint oneFile 1 (some 99) none).2 = none ∧
    (∃ n ∈ (moveEndpoint oneFile 1 (some 99) none).1,
      n.parentId = some 99 ∧
      ∀ m ∈ (moveEndpoint oneFile 1 (some 99) none).1, m.id ≠ 99) ∧
    pathOk (moveEndpoint oneFile 1 (some 99) none).1 = false := by
  decide

/-! ## C5 -/

/-- C5: whenever the path computed by `createFile` equals the path of an
already-stored node of the same project, the call answers `Conflict` and the
store is returned unchanged (nothing is persisted). -/
theorem c5_conflict_rejected (s : Store) (projects : List Nat) (r : CreateReq)
    (newId : Nat) (fp : String)
    (hproj : r.projectId ∈ projects)
    (hpath : createPath s r = Except.ok fp)
    (hdup : pathTaken s r.projectId fp = true) :
    createFile s projects r newId = (s, some Err.conflict) := by
  simp [createFile, hproj, hpath, hdup]

/-- Witness for C5 on a concrete reachable store: creating `f` again in
project 1 collides with the stored node at path `f`. -/
theorem c5_conflict_rejected_witness :
    createFile oneFile [1] ⟨"f", 1, none, .file, ""⟩ 2 =
      (oneFile, some Err.conflict) :=
  c5_conflict_rejected oneFile [1] ⟨"f", 1, none, .file, ""⟩ 2 "f"
    (by decide) (by rfl) (by decide)

/-! ## C6 -/

/-- C6: the claim is false as stated: `createFile` never compares the
parent's `projectId` with the request's.  In the reachable state
`crossStore`, node 1 is a folder of project 2, yet creating a project-1 node
under it succeeds and persists a record whose parent lives in the other
project. -/
theorem c6_counterexample :
    (∃ par ∈ crossStore, par.id = 1 ∧ par.projectId = 2 ∧ par.type = FType.folder) ∧
    (createEndpoint crossStore [1, 2] ⟨"x", 1, some 1, .file, ""⟩ 2).2 = none ∧
    (∃ n ∈ (createEndpoint crossStore [1, 2] ⟨"x", 1, some 1, .file, ""⟩ 2).1,
      n.projectId = 1 ∧ n.parentId = some 1) := by
  decide

/-- C6 (amended): with a `parentId` present, `createFile` fails with
`NotFound` when it resolves to nothing and with an invalid-parent error when
it resolves to a non-folder, persisting nothing in either case; when it
resolves to a folder the request proceeds regardless of the folder\'s
project: with the computed path free, the insert is persisted with the
cross-project parent reference unless the `{projectId, name, parentId}`
unique index rejects it with a duplicate-key error (persisting nothing). -/
theorem c6_parent_validation (s : Store) (projects : List Nat) (r : CreateReq)
    (newId : Nat) (pid : Nat)
    (hp : r.parentId = some pid) (hproj : r.projectId ∈ projects) :
    (findById s pid = none → createFile s projects r newId = (s, some Err.notFound)) ∧
    (∀ par, findById s pid = some par → par.type = FType.file →
      createFile s projects r newId = (s, some Err.invalidParent)) ∧
    (∀ par, findById s pid = some par → par.type = FType.folder →
      pathTaken s r.projectId (par.path ++ "/" ++ r.name) = false →
      (dupNamePar s
          { id := newId, projectId := r.projectId, parentId := r.parentId,
            type := r.type, name := r.name, path := par.path ++ "/" ++ r.name,
            content := if r.type = FType.file then r.content else "" } = false →
        createFile s projects r newId =
          (s ++ [{ id := newId, projectId := r.projectId, parentId := r.parentId,
                   type := r.type, name := r.name, path := par.path ++ "/" ++ r.name,
                   content := if r.type = FType.file then r.content else "" }],
           none)) ∧
      (dupNamePar s
          { id := newId, projectId := r.projectId, parentId := r.parentId,
            type := r.type, name := r.name, path := par.path ++ "/" ++ r.name,
            content := if r.type = FType.file then r.content else "" } = true →
        createFile s projects r newId = (s, some Err.duplicate))) := by
  refine ⟨fun hnone => ?_, fun par hpar htype => ?_,
    fun par hpar htype hfree => ⟨fun hdup => ?_, fun hdup => ?_⟩⟩
  · simp [createFile, createPath, hproj, hp, hnone]
  · simp [createFile, createPath, hproj, hp, hpar, htype]
  · rw [hp] at hdup
    simp [createFile, createPath, hproj, hp, hpar, htype, hfree, hdup]
  · rw [hp] at hdup
    simp [createFile, createPath, hproj, hp, hpar, htype, hfree, hdup]

/-- Witness for C6 (amended), instantiated on `crossStore`. -/
theorem c6_parent_validation_witness :
    createFile crossStore [1, 2] ⟨"x", 1, some 7, .file, ""⟩ 2 =
      (crossStore, some Err.notFound) :=
  (c6_parent_validation crossStore [1, 2] ⟨"x", 1, some 7, .file, ""⟩ 2 7
    rfl (by decide)).1 (by decide)

/-! ## C9 -/

/-- C9: the claim is false for the move variant: `fileValidation.move` only
checks the trimmed length, so the reachable single-file store accepts a move
renaming the node to `a/b`, persisting a name containing the forbidden `/`. -/
theorem c9_counterexample :
    validMoveName "a/b" = true ∧
    moveEndpoint oneFile 1 none (some "a/b") =
      ([{ id := 1, projectId := 1, parentId := none, type := FType.file,
          name := "a/b", path := "a/b", content := "" }], none) ∧
    '/' ∈ "a/b".data := by
  decide

/-- C9 (amended): create and rename-via-update reject, with a validation
error and no store change, every name that trims to empty or contains a
forbidden character; the move route checks only that the trimmed name has
length 1..255, so it accepts names with forbidden characters. -/
theorem c9_name_validation :
    (∀ nm : String, (jsTrim nm = "" ∨ ∃ c ∈ (jsTrim nm).data, forbiddenChar c = true) →
      validNodeName nm = false) ∧
    (∀ s projects r newId, validNodeName r.name = false →
      createEndpoint s projects r newId = (s, some Err.invalidName)) ∧
    (∀ s fid r nm, r.name = some nm → validNodeName nm = false →
      updateEndpoint s fid r = (s, some Err.invalidName)) ∧
    (∀ nm : String, 1 ≤ (jsTrim nm).length → (jsTrim nm).length ≤ 255 →
      validMoveName nm = true) := by
  refine ⟨fun nm h => ?_, fun s projects r newId h => ?_,
          fun s fid r nm hnm h => ?_, fun nm h1 h2 => ?_⟩
  · rcases h with h | ⟨c, hc, hforb⟩
    · simp [validNodeName, h]
    · unfold validNodeName
      rcases hall : (jsTrim nm).data.all (fun c => !forbiddenChar c) with _ | _
      · simp [hall]
      · exfalso
        rw [List.all_eq_true] at hall
        have := hall c hc
        rw [hforb] at this
        simp at this
  · simp [createEndpoint, h]
  · simp [updateEndpoint, hnm, h]
  · unfold validMoveName
    simp only [Bool.and_eq_true, decide_eq_true_eq]
    exact ⟨h1, h2⟩

/-- Witness for C9 (amended): `a/b` is rejected by the create/update rule but
accepted by the move rule. -/
theorem c9_name_validation_witness :
    validNodeName "a/b" = false ∧ validMoveName "a/b" = true :=
  ⟨c9_name_validation.1 "a/b" (Or.inr ⟨'/', by decide, by decide⟩),
   c9_name_validation.2.2.2 "a/b" (by decide) (by decide)⟩

/-! ## C4 -/

/-- C4: the claim is false on the code: renaming folder `a` of `folderXY` to
`b` while the second descendant save rejects reports a failure, but leaves a
partially renamed subtree as the durable end state: `x` keeps the rewritten
path `b/x` while `y` still has `a/y`. -/
theorem c4_counterexample :
    updateFileF 1 folderXY 1 { name := some "b" } =
      ([{ id := 1, projectId := 1, parentId := none, type := FType.folder,
          name := "b", path := "b", content := "" },
        { id := 2, projectId := 1, parentId := some 1, type := FType.file,
          name := "x", path := "b/x", content := "" },
        { id := 3, projectId := 1, parentId := some 1, type := FType.file,
          name := "y", path := "a/y", content := "" }],
       some Err.internal) := by
  decide

/-- C4 (amended): the cascade is a sequence of independent per-descendant
saves with no transaction: renaming the root folder `na` to a fresh `$`-free
name `nb` in the generic two-file store while the second descendant save
rejects reports an internal failure, yet the durable end state has the
folder and its first child renamed (`nb`, `nb/n1`) while the second child
keeps its old path (`na/n2`) — a partially renamed subtree observable by
subsequent reads. -/
theorem c4_partial_cascade (na nb n1 n2 : String)
    (h0 : nb ≠ "") (h1 : nb ≠ na) (h2 : nb ≠ na ++ "/" ++ n1)
    (h3 : nb ≠ na ++ "/" ++ n2) (h4 : nb ++ "/" ++ n1 ≠ na ++ "/" ++ n2)
    (h5 : n1 ≠ n2) (hdol : dollarFree nb = true) :
    updateFileF 1 (famStore na n1 n2) 1 { name := some nb } =
      ([{ id := 1, projectId := 1, parentId := none, type := FType.folder,
          name := nb, path := nb, content := "" },
        { id := 2, projectId := 1, parentId := some 1, type := FType.file,
          name := n1, path := nb ++ "/" ++ n1, content := "" },
        { id := 3, projectId := 1, parentId := some 1, type := FType.file,
          name := n2, path := na ++ "/" ++ n2, content := "" }],
       some Err.internal) := by
  have hA : findById (famStore na n1 n2) 1 =
      some { id := 1, projectId := 1, parentId := none, type := FType.folder,
             name := na, path := na, content := "" } := rfl
  have hconf : conflictAt (famStore na n1 n2) 1 nb 1 = false := by
    simp [conflictAt, famStore, Ne.symm h2, Ne.symm h3]
  have hname : nameStep (famStore na n1 n2)
      { id := 1, projectId := 1, parentId := none, type := FType.folder,
        name := na, path := na, content := "" } (some nb) =
      .ok ({ id := 1, projectId := 1, parentId := none, type := FType.folder,
             name := nb, path := nb, content := "" }, nb) := by
    simp only [nameStep]
    rw [if_pos ⟨h0, h1⟩, hconf]
    rfl
  have hslash : ("/" : String).length = 1 := rfl
  have hne1 : nb ≠ nb ++ "/" ++ n1 := by
    intro h
    have hlen := congrArg String.length h
    rw [String.length_append, String.length_append, hslash] at hlen
    omega
  have hjsx : jsReplace na nb (na ++ "/" ++ n1) = nb ++ "/" ++ n1 := by
    rw [jsReplace_no_dollar _ _ _ hdol, str_append_assoc, replaceFirst_append_self,
      ← str_append_assoc]
  have hsave1 : saveOk (famStore na n1 n2)
      { id := 1, projectId := 1, parentId := none, type := FType.folder,
        name := nb, path := nb, content := "" } = true := by
    simp [saveOk, dupPath, dupNamePar, famStore, Ne.symm h2, Ne.symm h3]
  have hsave2 : saveOk
      [{ id := 1, projectId := 1, parentId := none, type := FType.folder,
         name := nb, path := nb, content := "" },
       { id := 2, projectId := 1, parentId := some 1, type := FType.file,
         name := n1, path := na ++ "/" ++ n1, content := "" },
       { id := 3, projectId := 1, parentId := some 1, type := FType.file,
         name := n2, path := na ++ "/" ++ n2, content := "" }]
      { id := 2, projectId := 1, parentId := some 1, type := FType.file,
        name := n1, path := nb ++ "/" ++ n1, content := "" } = true := by
    have h5x : n2 ≠ n1 := Ne.symm h5
    simp [saveOk, dupPath, dupNamePar, hne1, Ne.symm h4, h5x]
  have hsaveA : save (famStore na n1 n2)
      { id := 1, projectId := 1, parentId := none, type := FType.folder,
        name := nb, path := nb, content := "" } =
      [{ id := 1, projectId := 1, parentId := none, type := FType.folder,
         name := nb, path := nb, content := "" },
       { id := 2, projectId := 1, parentId := some 1, type := FType.file,
         name := n1, path := na ++ "/" ++ n1, content := "" },
       { id := 3, projectId := 1, parentId := some 1, type := FType.file,
         name := n2, path := na ++ "/" ++ n2, content := "" }] := rfl
  have hcas : updateChildrenPathsF 1 3
      [{ id := 1, projectId := 1, parentId := none, type := FType.folder,
         name := nb, path := nb, content := "" },
       { id := 2, projectId := 1, parentId := some 1, type := FType.file,
         name := n1, path := na ++ "/" ++ n1, content := "" },
       { id := 3, projectId := 1, parentId := some 1, type := FType.file,
         name := n2, path := na ++ "/" ++ n2, content := "" }] 1 na nb 0 =
      ([{ id := 1, projectId := 1, parentId := none, type := FType.folder,
          name := nb, path := nb, content := "" },
        { id := 2, projectId := 1, parentId := some 1, type := FType.file,
          name := n1, path := nb ++ "/" ++ n1, content := "" },
        { id := 3, projectId := 1, parentId := some 1, type := FType.file,
          name := n2, path := na ++ "/" ++ n2, content := "" }],
       2, some Err.internal) := by
    rw [show (3 : Nat) = 2 + 1 from rfl, updateChildrenPathsF_succ]
    norm_num [childrenOf, List.filter, List.foldl_cons, List.foldl_nil,
      cascadeStepF_none, hjsx, hsave2, save, List.map]
    rw [if_neg (show ¬FType.file = FType.folder from by decide), cascadeStepF_none,
      if_pos (show (1 : Nat) = 1 from rfl)]
  simp only [updateFileF, hA, hname, contentStep, parentStep]
  rw [if_pos hsave1]
  rw [if_pos ⟨trivial, h1⟩]
  simp only [hsaveA, List.length_cons, List.length_nil, hcas]

/-- Witness for C4 (amended), instantiated at the names of `folderXY`:
renaming `a` to `b` with the second child save rejecting leaves `b`, `b/x`,
`a/y` durable and reports an internal error. -/
theorem c4_partial_cascade_witness :
    ("b" : String) ≠ "" ∧ ("b" : String) ≠ "a" ∧
    ("b" : String) ≠ "a" ++ "/" ++ "x" ∧ ("b" : String) ≠ "a" ++ "/" ++ "y" ∧
    ("b" : String) ++ "/" ++ "x" ≠ "a" ++ "/" ++ "y" ∧ ("x" : String) ≠ "y" ∧
    dollarFree "b" = true ∧
    updateFileF 1 (famStore "a" "x" "y") 1 { name := some "b" } =
      ([{ id := 1, projectId := 1, parentId := none, type := FType.folder,
          name := "b", path := "b", content := "" },
        { id := 2, projectId := 1, parentId := some 1, type := FType.file,
          name := "x", path := "b" ++ "/" ++ "x", content := "" },
        { id := 3, projectId := 1, parentId := some 1, type := FType.file,
          name := "y", path := "a" ++ "/" ++ "y", content := "" }],
       some Err.internal) :=
  ⟨by decide, by decide, by decide, by decide, by decide, by decide, by decide,
   c4_partial_cascade "a" "b" "x" "y" (by decide) (by decide) (by decide)
     (by decide) (by decide) (by decide) (by decide)⟩

/-! ## C3 -/

/-- C3: the claim is false on the code: JavaScript `replace` performs
`$`-substitution on the replacement string, and `$` and `&` are accepted by
the filename validator.  Renaming the folder `a` of the reachable store
`folderXY` to `$&` passes validation and succeeds (no error), yet every
descendant keeps its old path (`"a/x".replace("a", "$&")` is `"a/x"`), so
the descendants\' paths do not end up with the old prefix replaced by the
new one. -/
theorem c3_counterexample :
    validNodeName "$&" = true ∧
    updateEndpoint folderXY 1 { name := some "$&" } =
      ([{ id := 1, projectId := 1, parentId := none, type := FType.folder,
          name := "$&", path := "$&", content := "" },
        { id := 2, projectId := 1, parentId := some 1, type := FType.file,
          name := "x", path := "a/x", content := "" },
        { id := 3, projectId := 1, parentId := some 1, type := FType.file,
          name := "y", path := "a/y", content := "" }], none) := by
  decide

/-- C3 (amended): when a rename/move through `updateFile` succeeds on a
folder of a well-formed store (distinct ids, sane subtree below the folder,
requested parent -- if any -- outside the folder and its subtree) and no `$`
occurs in the stored paths, the folder\'s name or the requested name, every
transitive descendant ends up with its previous path in which the leading
prefix `p` (the folder\'s old path) is replaced by `q` (the folder\'s new
path), with all other fields unchanged, and every node outside the subtree
is untouched. -/
theorem c3_cascade_correct (s s2 : Store) (fid : Nat) (r : UpdateReq) (f : File)
    (hd : distinctIds s)
    (hf : findById s fid = some f)
    (hfolder : f.type = FType.folder)
    (hsane : subtreeSane s.length s fid f.path = true)
    (houtside : ∀ pid, r.parentId = some (some pid) →
      pid ≠ fid ∧ pid ∉ subtreeIds s.length s fid)
    (hdfs : ∀ n ∈ s, dollarFree n.path = true)
    (hdfn : dollarFree f.name = true)
    (hdfr : ∀ nm, r.name = some nm → dollarFree nm = true)
    (hsucc : updateFile s fid r = (s2, none)) :
    ∃ f', findById s2 fid = some f' ∧
      ∀ n ∈ s, n.id ≠ fid →
        ∃ n', findById s2 n.id = some n' ∧
          n'.parentId = n.parentId ∧ n'.name = n.name ∧ n'.type = n.type ∧
          n'.projectId = n.projectId ∧
          (n.id ∈ subtreeIds s.length s fid →
            ∃ t, n.path = f.path ++ t ∧ n'.path = f'.path ++ t) ∧
          (n.id ∉ subtreeIds s.length s fid → n'.path = n.path) := by
  obtain ⟨hfs, hfid⟩ := findById_mem hf
  have hfit : subtreeFits s.length s fid = true := subtreeSane_fits _ _ _ _ hsane
  unfold updateFile at hsucc
  simp only [] at hsucc
  split at hsucc
  · simp at hsucc
  · rename_i file0 heq
    have hfile0 : f = file0 := by
      rw [heq] at hf
      exact (Option.some.inj hf).symm
    subst hfile0
    split at hsucc
    · simp at hsucc
    · rename_i f1 pth1 heq1
      obtain ⟨h1id, h1par, h1ty, h1proj, h1path⟩ := nameStep_ok heq1
      split at hsucc
      · simp at hsucc
      · rename_i f3 newPath heq3
        obtain ⟨h2id, h2par, h2ty, h2proj, h2nm, h2path⟩ :=
          contentStep_fields f1 r.content
        obtain ⟨h3id, h3ty, h3nm, h3proj, h3path, h3par⟩ :=
          parentStep_ok h2path heq3
        obtain ⟨hdf1, hdf1n⟩ := nameStep_df heq1 hdfs hdfr (hdfs f hfs) hdfn
        have hdf2n : dollarFree (contentStep f1 r.content).name = true := by
          rw [h2nm]
          exact hdf1n
        have hdfcur : dollarFree f1.path = true := by
          rw [h1path]
          exact hdf1
        have hdfnew : dollarFree newPath = true :=
          parentStep_df heq3 hdfs hdf2n hdfcur
        have hty3 : f3.type = FType.folder := by
          rw [h3ty, h2ty, h1ty]; exact hfolder
        have hid3 : f3.id = fid := by
          rw [h3id, h2id, h1id]; exact hfid
        have hselfpar : f.parentId ≠ some fid := by
          intro hsp
          have := selfParent_not_fits s.length s f hfs (by rw [hfid]; exact hsp)
          rw [hfid] at this
          rw [this] at hfit
          cases hfit
        have hparsub : ∀ j, f.parentId = some j →
            j ∉ subtreeIds s.length s fid := by
          intro j hj hjmem
          have hfchild : f ∈ childrenOf s j := mem_childrenOf.2 ⟨hfs, hj⟩
          have hmem := closed_subtree hfit (Or.inr hjmem) hfchild
          rw [hfid] at hmem
          exact not_self_mem_subtree hfit hmem
        have hparentOutside : ∀ j, f3.parentId = some j →
            j ≠ fid ∧ j ∉ subtreeIds s.length s fid := by
          intro j hj
          rcases h3par with hsame | ⟨po, hpo, hpar⟩
          · have hfp : f.parentId = some j := by
              rw [← h1par, ← h2par, ← hsame]; exact hj
            exact ⟨fun hji => hselfpar (hji ▸ hfp), hparsub j hfp⟩
          · have hpoj : po = some j := by rw [← hpar]; exact hj
            rw [hpoj] at hpo
            exact houtside j hpo
        have hkids1 : ∀ j, j ∈ fid :: subtreeIds s.length s fid →
            childrenOf (save s f3) j = childrenOf s j := by
          intro j hj
          apply childrenOf_save
          · intro x hx hxid hpar
            have hxf : x = f := eq_of_id_eq hd hx hfs (by rw [hxid, hid3, ← hfid])
            subst hxf
            rcases List.mem_cons.1 hj with rfl | hjmem
            · exact hselfpar hpar
            · exact hparsub j hpar hjmem
          · intro hpar
            rcases hparentOutside j hpar with ⟨hne, hnmem⟩
            rcases List.mem_cons.1 hj with rfl | hjmem
            · exact hne rfl
            · exact hnmem hjmem
        have hlen1 : (save s f3).length = s.length := length_save s f3
        obtain ⟨hTeq1, _, hSane1⟩ := subtree_transfer s.length s (save s f3) fid hkids1
        have hdist1 : distinctIds (save s f3) := distinctIds_save hd
        have hf3mem : f3 ∈ save s f3 := mem_save_of_id hfs (by rw [hid3, hfid])
        have hf3notin : f3.id ∉ subtreeIds s.length s fid := by
          rw [hid3]; exact not_self_mem_subtree hfit
        split at hsucc
        · -- the single save passed the unique indexes
          split at hsucc
          · -- folder and path changed: the cascade ran
            rename_i hcond
            simp only [Prod.mk.injEq] at hsucc
            obtain ⟨hs2, hflagif⟩ := hsucc
            have hres2 : (updateChildrenPaths (save s f3).length (save s f3) f3.id
                f.path newPath).2 = true := by
              by_cases hb : (updateChildrenPaths (save s f3).length (save s f3) f3.id
                  f.path newPath).2 = true
              · exact hb
              · rw [if_neg hb] at hflagif
                cases hflagif
            have hdfsave : ∀ n ∈ save s f3, dollarFree n.path = true := by
              intro n hn
              unfold save at hn
              rcases List.mem_map.1 hn with ⟨x, hx, rfl⟩
              by_cases hxi : x.id = f3.id
              · rw [if_pos hxi, h3path]
                exact hdfnew
              · rw [if_neg hxi]
                exact hdfs x hx
            have hsane1 : subtreeSane (save s f3).length (save s f3) f3.id f.path = true := by
              rw [hlen1, hid3, hSane1 f.path]
              exact hsane
            have hcas := updateChildrenPaths_eq (save s f3).length (save s f3) f3.id
              f.path newPath hdist1 hsane1 hdfnew hdfsave hres2
            have hTeq1' : subtreeIds (save s f3).length (save s f3) f3.id =
                subtreeIds s.length s fid := by
              rw [hlen1, hid3, hTeq1]
            rw [hcas, hTeq1'] at hs2
            have hdist2 : distinctIds s2 := by
              rw [← hs2]
              exact distinctIds_map (fun n => pathRw_id _ _ _ n) hdist1
            refine ⟨f3, ?_, ?_⟩
            · have hfix : pathRw (subtreeIds s.length s fid) f.path newPath f3 = f3 :=
                pathRw_of_not_mem hf3notin
              have hmem2 : f3 ∈ s2 := by
                have hmem0 :
                    pathRw (subtreeIds s.length s fid) f.path newPath f3 ∈
                      (save s f3).map (pathRw (subtreeIds s.length s fid) f.path newPath) :=
                  List.mem_map_of_mem _ hf3mem
                rw [hfix] at hmem0
                rw [← hs2]
                exact hmem0
              have := findById_of_mem hdist2 hmem2
              rw [hid3] at this
              exact this
            · intro n hn hnid
              have hnsave : n ∈ save s f3 :=
                mem_save_of_ne hn (by rw [hid3]; exact hnid)
              refine ⟨pathRw (subtreeIds s.length s fid) f.path newPath n, ?_, ?_, ?_, ?_, ?_, ?_, ?_⟩
              · have hmem2 : pathRw (subtreeIds s.length s fid) f.path newPath n ∈ s2 := by
                  rw [← hs2]
                  exact List.mem_map_of_mem _ hnsave
                have := findById_of_mem hdist2 hmem2
                rw [pathRw_id] at this
                exact this
              · exact pathRw_parentId _ _ _ n
              · exact pathRw_name _ _ _ n
              · exact pathRw_type _ _ _ n
              · exact pathRw_projectId _ _ _ n
              · intro hmem
                rcases path_of_mem_subtree s.length s fid f.path n hd hsane hn hmem
                  with ⟨t0, ht0⟩
                refine ⟨"/" ++ t0, by rw [ht0, str_append_assoc], ?_⟩
                rw [pathRw_of_mem hmem]
                show replaceFirst f.path newPath n.path = f3.path ++ ("/" ++ t0)
                rw [show n.path = f.path ++ ("/" ++ t0) from by rw [ht0, str_append_assoc],
                  replaceFirst_append_self, h3path]
              · intro hmem
                rw [pathRw_of_not_mem hmem]
          · -- no path change (or not a folder): only the single save ran
            rename_i hcond
            simp only [Prod.mk.injEq, and_true] at hsucc
            have hpatheq : newPath = f.path := by
              by_cases hh : newPath = f.path
              · exact hh
              · exact absurd ⟨hty3, hh⟩ hcond
            refine ⟨f3, ?_, ?_⟩
            · have := findById_of_mem (hsucc ▸ hdist1) (hsucc ▸ hf3mem)
              rw [hid3] at this
              exact this
            · intro n hn hnid
              have hnsave : n ∈ save s f3 :=
                mem_save_of_ne hn (by rw [hid3]; exact hnid)
              refine ⟨n, ?_, rfl, rfl, rfl, rfl, ?_, fun _ => rfl⟩
              · exact findById_of_mem (hsucc ▸ hdist1) (hsucc ▸ hnsave)
              · intro hmem
                rcases path_of_mem_subtree s.length s fid f.path n hd hsane hn hmem
                  with ⟨t0, ht0⟩
                refine ⟨"/" ++ t0, by rw [ht0, str_append_assoc], ?_⟩
                rw [h3path, hpatheq, ht0, str_append_assoc]
        · -- the save was rejected by a unique index: no success
          simp at hsucc

/-- Witness for C3 (amended): renaming the folder `a` of `folderXY` to the
`$`-free name `b` cascades to both children. -/
theorem c3_cascade_correct_witness :
    ∃ s2 : Store, updateFile folderXY 1 { name := some "b" } = (s2, none) ∧
      ∃ f', findById s2 1 = some f' ∧
        ∀ n ∈ folderXY, n.id ≠ 1 →
          ∃ n', findById s2 n.id = some n' ∧
            n'.parentId = n.parentId ∧ n'.name = n.name ∧ n'.type = n.type ∧
            n'.projectId = n.projectId ∧
            (n.id ∈ subtreeIds folderXY.length folderXY 1 →
              ∃ t, n.path = "a" ++ t ∧ n'.path = f'.path ++ t) ∧
            (n.id ∉ subtreeIds folderXY.length folderXY 1 → n'.path = n.path) := by
  refine ⟨(updateFile folderXY 1 { name := some "b" }).1, ?_, ?_⟩
  · have : (updateFile folderXY 1 { name := some "b" }).2 = none := by decide
    exact Prod.ext rfl this
  · exact c3_cascade_correct folderXY _ 1 { name := some "b" }
      { id := 1, projectId := 1, parentId := none, type := FType.folder,
        name := "a", path := "a", content := "" }
      (by decide) (by decide) (by decide) (by decide)
      (by intro pid hpid; cases hpid)
      (by decide) (by decide)
      (by intro nm hnm; cases hnm; decide)
      (Prod.ext rfl (by decide))

/-! ## C10 -/

/-- The reachable store for the C10 counterexample: root file `f`, root
folder `d`, and a second file named `f` inside `d` (allowed: different
parent), all in project 1. -/
def dupStore : Store :=
  (createEndpoint
    (createEndpoint
      (createEndpoint [] [1] ⟨"f", 1, none, .file, ""⟩ 1).1
      [1] ⟨"d", 1, none, .folder, ""⟩ 2).1
    [1] ⟨"f", 1, some 2, .file, ""⟩ 3).1

/-- C10: the claim\'s "it does not fail: it persists the node" is false in
general: in the reachable store `dupStore`, moving `d/f` to the nonexistent
parent 9 computes the root path `f`, which the unique `{projectId, path}`
index rejects -- the request fails with a duplicate-key error and nothing is
persisted. -/
theorem c10_counterexample :
    (∀ n ∈ dupStore, n.id ≠ 9) ∧
    findById dupStore 3 =
      some { id := 3, projectId := 1, parentId := some 2, type := FType.file,
             name := "f", path := "d/f", content := "" } ∧
    moveEndpoint dupStore 3 (some 9) none = (dupStore, some Err.duplicate) := by
  decide

/-- C10 (amended): on a well-formed store, a move request whose
`newParentId` matches no stored document is not rejected for that reason:
whenever the underlying save(s) pass the unique indexes, the request
succeeds and the node is persisted with `parentId` set to the dangling id
and `path` equal to its bare name. -/
theorem c10_dangling_parent_move (s : Store) (fid badId : Nat) (f : File)
    (hd : distinctIds s)
    (hf : findById s fid = some f)
    (hbad : ∀ n ∈ s, n.id ≠ badId)
    (hsane : subtreeSane s.length s fid f.path = true)
    (hdfs : ∀ n ∈ s, dollarFree n.path = true)
    (hdfn : dollarFree f.name = true)
    (hok : (moveTo s f (some badId) none).2 = true) :
    (moveFile s fid (some badId) none).2 = none ∧
    findById (moveFile s fid (some badId) none).1 fid =
      some { f with parentId := some badId, name := f.name, path := f.name } := by
  obtain ⟨hfs, hfid⟩ := findById_mem hf
  subst hfid
  have hfit : subtreeFits s.length s f.id = true := subtreeSane_fits _ _ _ _ hsane
  have hfind : findById s badId = none := findById_eq_none.2 hbad
  have hmv : moveFile s f.id (some badId) none =
      ((moveTo s f (some badId) none).1,
       if (moveTo s f (some badId) none).2 then none else some Err.duplicate) := by
    unfold moveFile
    rw [hf]
  have hmv2 : moveTo s f (some badId) none =
      (if saveOk s { f with parentId := some badId, name := f.name, path := f.name } then
        (if f.type = FType.folder then
          updateChildrenPaths
            (save s { f with parentId := some badId, name := f.name, path := f.name }).length
            (save s { f with parentId := some badId, name := f.name, path := f.name })
            f.id f.path f.name
        else (save s { f with parentId := some badId, name := f.name, path := f.name }, true))
      else (s, false)) := by
    unfold moveTo
    simp [hfind]
  by_cases hG : saveOk s
      { f with parentId := some badId, name := f.name, path := f.name } = true
  case neg =>
    rw [hmv2, if_neg hG] at hok
    simp at hok
  case pos =>
    rw [hmv2, if_pos hG] at hok
    rw [hmv, hmv2, if_pos hG]
    have hselfpar : f.parentId ≠ some f.id := by
      intro hsp
      have := selfParent_not_fits s.length s f hfs hsp
      rw [this] at hfit
      cases hfit
    have hparsub : ∀ j, f.parentId = some j → j ∉ subtreeIds s.length s f.id := by
      intro j hj hjmem
      have hfchild : f ∈ childrenOf s j := mem_childrenOf.2 ⟨hfs, hj⟩
      exact not_self_mem_subtree hfit (closed_subtree hfit (Or.inr hjmem) hfchild)
    have hfidid : f.id ∈ ids s := List.mem_map_of_mem File.id hfs
    have hbadids : ∀ j, j ∈ ids s → j ≠ badId := by
      intro j hj
      rcases List.mem_map.1 hj with ⟨n, hn, hni⟩
      rw [← hni]
      exact hbad n hn
    have hkids1 : ∀ j, j ∈ f.id :: subtreeIds s.length s f.id →
        childrenOf (save s { f with parentId := some badId, name := f.name, path := f.name }) j =
          childrenOf s j := by
      intro j hj
      apply childrenOf_save
      · intro x hx hxid hpar
        have hxf : x = f := eq_of_id_eq hd hx hfs hxid
        subst hxf
        rcases List.mem_cons.1 hj with rfl | hjmem
        · exact hselfpar hpar
        · exact hparsub j hpar hjmem
      · intro hpar
        have hjbad : badId = j := Option.some.inj hpar
        rcases List.mem_cons.1 hj with rfl | hjmem
        · exact hbadids f.id hfidid hjbad.symm
        · exact hbadids j (subtreeIds_subset_ids s.length s f.id j hjmem) hjbad.symm
    have hdist1 : distinctIds
        (save s { f with parentId := some badId, name := f.name, path := f.name }) :=
      distinctIds_save hd
    have hf1mem : ({ f with parentId := some badId, name := f.name, path := f.name } : File) ∈
        save s { f with parentId := some badId, name := f.name, path := f.name } :=
      mem_save_of_id hfs rfl
    by_cases hft : f.type = FType.folder
    · rw [if_pos hft]
      rw [if_pos hft] at hok
      obtain ⟨hTeq1, _, hSane1⟩ :=
        subtree_transfer s.length s
          (save s { f with parentId := some badId, name := f.name, path := f.name }) f.id hkids1
      have hlen1 : (save s { f with parentId := some badId, name := f.name, path := f.name }).length
          = s.length :=
        length_save s _
      have hsane1 : subtreeSane
          (save s { f with parentId := some badId, name := f.name, path := f.name }).length
          (save s { f with parentId := some badId, name := f.name, path := f.name })
          f.id f.path = true := by
        rw [hlen1, hSane1 f.path]
        exact hsane
      have hdfsave : ∀ n ∈
          save s { f with parentId := some badId, name := f.name, path := f.name },
          dollarFree n.path = true := by
        intro n hn
        unfold save at hn
        rcases List.mem_map.1 hn with ⟨x, hx, rfl⟩
        by_cases hxi : x.id =
            ({ f with parentId := some badId, name := f.name, path := f.name } : File).id
        · rw [if_pos hxi]
          exact hdfn
        · rw [if_neg hxi]
          exact hdfs x hx
      have hcasEq := updateChildrenPaths_eq
        (save s { f with parentId := some badId, name := f.name, path := f.name }).length
        (save s { f with parentId := some badId, name := f.name, path := f.name })
        f.id f.path f.name hdist1 hsane1 hdfn hdfsave hok
      constructor
      · show (if (updateChildrenPaths
            (save s { f with parentId := some badId, name := f.name, path := f.name }).length
            (save s { f with parentId := some badId, name := f.name, path := f.name })
            f.id f.path f.name).2 = true then (none : Option Err) else some Err.duplicate) = none
        rw [if_pos hok]
      · show findById (updateChildrenPaths
            (save s { f with parentId := some badId, name := f.name, path := f.name }).length
            (save s { f with parentId := some badId, name := f.name, path := f.name })
            f.id f.path f.name).1 f.id = _
        rw [hcasEq]
        have hTeq1' : subtreeIds
            (save s { f with parentId := some badId, name := f.name, path := f.name }).length
            (save s { f with parentId := some badId, name := f.name, path := f.name }) f.id =
            subtreeIds s.length s f.id := by
          rw [hlen1, hTeq1]
        rw [hTeq1']
        have hnotin : ({ f with parentId := some badId, name := f.name, path := f.name } : File).id
            ∉ subtreeIds s.length s f.id :=
          not_self_mem_subtree hfit
        have hfix : pathRw (subtreeIds s.length s f.id) f.path f.name
            { f with parentId := some badId, name := f.name, path := f.name } =
            { f with parentId := some badId, name := f.name, path := f.name } :=
          pathRw_of_not_mem hnotin
        have hmem0 := List.mem_map_of_mem (pathRw (subtreeIds s.length s f.id) f.path f.name) hf1mem
        rw [hfix] at hmem0
        have hdist2 : distinctIds
            ((save s { f with parentId := some badId, name := f.name, path := f.name }).map
              (pathRw (subtreeIds s.length s f.id) f.path f.name)) :=
          distinctIds_map (fun n => pathRw_id _ _ _ n) hdist1
        exact findById_of_mem hdist2 hmem0
    · rw [if_neg hft]
      rw [if_neg hft] at hok
      refine ⟨rfl, ?_⟩
      exact findById_of_mem hdist1 hf1mem

/-- Witness for C10 (amended) on the reachable single-file store. -/
theorem c10_dangling_parent_move_witness :
    (moveFile oneFile 1 (some 99) none).2 = none ∧
    findById (moveFile oneFile 1 (some 99) none).1 1 =
      some { id := 1, projectId := 1, parentId := some 99, type := FType.file,
             name := "f", path := "f", content := "" } :=
  c10_dangling_parent_move oneFile 1 99
    { id := 1, projectId := 1, parentId := none, type := FType.file,
      name := "f", path := "f", content := "" }
    (by decide) (by decide) (by decide) (by decide) (by decide) (by decide)
    (by decide)

/-! ## C7 -/

/-- C7: a successful `deleteFile` on a stored node whose subtree is sane
removes exactly the node and all of its transitive descendants — the
resulting store is the original minus the subtree, kept in order — so no
record of any tree built afterwards carries a deleted id; and `deleteFile`
of an id matching no stored node returns `notFound` with the store
unchanged, never a silent success. -/
theorem c7_delete_subtree :
    (∀ (s : Store) (fid K : Nat) (f : File),
      distinctIds s → findById s fid = some f → s.length = K + 1 →
      subtreeSane K s f.id f.path = true →
      (f.type = FType.folder ∨ childrenOf s f.id = []) →
      deleteFile s fid =
        (s.filter (fun n => ¬(n.id = f.id ∨ n.id ∈ subtreeIds K s f.id)), none) ∧
      ∀ (fuel pid : Nat) (par : Option Nat) (t : FTree),
        t ∈ buildFileTree fuel (deleteFile s fid).1 pid par →
        ∀ g ∈ flattenT t, ¬(g.id = f.id ∨ g.id ∈ subtreeIds K s f.id)) ∧
    (∀ (s : Store) (fid : Nat), findById s fid = none →
      deleteFile s fid = (s, some Err.notFound)) := by
  constructor
  · intro s fid K f hd hfind hK hsane hroot
    have hdel : deleteFile s fid =
        (s.filter (fun n => ¬(n.id = f.id ∨ n.id ∈ subtreeIds K s f.id)), none) := by
      unfold deleteFile
      rw [hfind]
      show (deleteRecursively s.length s f, none) = _
      rw [hK, deleteRecursively_eq K s f hd hsane hroot]
    refine ⟨hdel, ?_⟩
    intro fuel pid par t ht g hg
    rw [hdel] at ht
    have hgs := flattenT_sub fuel _ pid par t ht g hg
    have hmem := (List.mem_filter.1 hgs).2
    simpa using hmem
  · intro s fid h
    unfold deleteFile
    rw [h]

/-- Witness for C7: deleting the folder `a` of the reachable store `folderXY`
removes `a`, `a/x` and `a/y` (everything), and deleting the unused id 9
returns `notFound` leaving the store unchanged. -/
theorem c7_delete_subtree_witness :
    (distinctIds folderXY ∧
     findById folderXY 1 = some ⟨1, 1, none, FType.folder, "a", "a", ""⟩ ∧
     folderXY.length = 2 + 1 ∧
     subtreeSane 2 folderXY 1 "a" = true ∧
     deleteFile folderXY 1 =
       (folderXY.filter (fun n => ¬(n.id = 1 ∨ n.id ∈ subtreeIds 2 folderXY 1)),
        none)) ∧
    (findById folderXY 9 = none ∧
     deleteFile folderXY 9 = (folderXY, some Err.notFound)) :=
  ⟨⟨by decide, by decide, rfl, by decide,
    (c7_delete_subtree.1 folderXY 1 2 ⟨1, 1, none, FType.folder, "a", "a", ""⟩
      (by decide) (by decide) rfl (by decide) (Or.inl rfl)).1⟩,
   ⟨by decide, c7_delete_subtree.2 folderXY 9 (by decide)⟩⟩

/-! ## C8 -/

/-- C8: every level of every tree built by `buildFileTree` is sorted by the
relation `fileLe`, which holds exactly when the first node is a folder and
the second a file, or both have the same type and the first name is
lexicographically no greater — folders first, then names ascending — and a
project with no stored nodes yields the empty forest rather than an error. -/
theorem c8_tree_ordering :
    (∀ (fuel : Nat) (s : Store) (pid : Nat) (par : Option Nat),
      forestOrdered (buildFileTree fuel s pid par)) ∧
    (∀ a b : File, fileLe a b = true ↔
      ((a.type = FType.folder ∧ b.type = FType.file) ∨
       (a.type = b.type ∧ a.name ≤ b.name))) ∧
    (∀ (fuel : Nat) (s : Store) (pid : Nat) (par : Option Nat),
      (∀ n ∈ s, n.projectId ≠ pid) → buildFileTree fuel s pid par = []) := by
  refine ⟨buildFileTree_ordered, ?_, buildFileTree_empty_project⟩
  intro a b
  cases ha : a.type <;> cases hb : b.type <;>
    simp [fileLe, typeRank, ha, hb, Bool.or_eq_true, Bool.and_eq_true,
      decide_eq_true_eq, beq_iff_eq]

/-- Witness for C8: the tree of the reachable store `folderXY` is ordered at
every level, and building the tree of the empty project 5 yields `[]`. -/
theorem c8_tree_ordering_witness :
    forestOrdered (buildFileTree 3 folderXY 1 none) ∧
    (∀ n ∈ folderXY, n.projectId ≠ 5) ∧
    buildFileTree 3 folderXY 5 none = [] :=
  ⟨c8_tree_ordering.1 3 folderXY 1 none, by decide,
   c8_tree_ordering.2.2 3 folderXY 5 none (by decide)⟩

end CipherStudio
